import Mathlib

/-!
Verification of the natural-language specification of the Julia LLVM
multi-versioning pass (src/src/llvm-multiversioning.cpp) against a shallow
embedding of its algorithms: the per-function feature analyzer
(collect_func_info), the clone-set propagator and clone bitmask annotation
(annotate_module_clones), the CloneCtx construction with its target
validation (CloneCtx::CloneCtx, consume_gv), clone declaration creation
(CloneCtx::clone_decls), relocation-slot preparation and lookup
(CloneCtx::prepare_slots, CloneCtx::get_reloc_slot), alias rewriting
(CloneCtx::rewrite_alias), the position-independent offset-table encoding
(emit_offset_table, get_ptrdiff32) and the top-level driver
(runMultiVersioning).
-/

namespace Multiversioning

/-- Modelled from the spec: the clone-reason flag set of a TargetDescriptor is
{clone-all, clone-loop, clone-simd, clone-math, clone-cpu-dispatch,
clone-float16} plus the size/speed policy bits.  The numeric values live in
processor.h, which is outside src/; the code only relies on the flags being
pairwise distinct single bits, which the model preserves. -/
def JL_TARGET_CLONE_ALL : Nat := 1 <<< 0

def JL_TARGET_CLONE_LOOP : Nat := 1 <<< 1

def JL_TARGET_CLONE_SIMD : Nat := 1 <<< 2

def JL_TARGET_CLONE_MATH : Nat := 1 <<< 3

def JL_TARGET_CLONE_CPU : Nat := 1 <<< 4

def JL_TARGET_CLONE_FLOAT16 : Nat := 1 <<< 5

def JL_TARGET_OPTSIZE : Nat := 1 <<< 6

def JL_TARGET_MINSIZE : Nat := 1 <<< 7

/-- The mask of selective clone reasons, as in the anonymous-namespace
constant clone_mask of llvm-multiversioning.cpp. -/
def clone_mask : Nat :=
  JL_TARGET_CLONE_LOOP ||| JL_TARGET_CLONE_SIMD ||| JL_TARGET_CLONE_MATH |||
  JL_TARGET_CLONE_CPU ||| JL_TARGET_CLONE_FLOAT16

/-- One LLVM instruction of a scanned function body, abstracted to exactly the
observations collect_func_info makes about it: whether it is a CallInst and if
so whether its called function type is a vector type and what the direct
callee name is; whether it is a StoreInst and its value operand has vector
type; whether the instruction result type is a vector type; whether it is an
FPMathOperator with any fast-math flag; and whether some operand has half
(16-bit float) type. -/
structure Instr where
  isCall : Bool := false
  callFTyVector : Bool := false
  calleeName : Option String := none
  isStore : Bool := false
  storeValVector : Bool := false
  resultVector : Bool := false
  isFPMath : Bool := false
  fastFlags : Bool := false
  hasHalfOperand : Bool := false
deriving DecidableEq, Repr, Inhabited

/-- Prefix test on strings via the underlying character list
(StringRef::startswith); stated on List Char so that concrete instances
reduce inside the kernel. -/
def str_starts_with (s p : String) : Bool := p.data.isPrefixOf s.data

/-- One step of the instruction loop in collect_func_info: the flag/has_veccall
updates performed for a single instruction (lines 91-133 of
llvm-multiversioning.cpp).  The oracle fma_known models the external
always_have_fma predicate, keyed by the callee name. -/
def instr_step (fma_known : String → Option Bool) (st : Nat × Bool) (I : Instr) :
    Nat × Bool :=
  let st1 :=
    if I.isCall then
      let st2 :=
        if I.callFTyVector then (st.1 ||| JL_TARGET_CLONE_SIMD, true) else st
      match I.calleeName with
      | some name =>
        if str_starts_with name "llvm.muladd." || str_starts_with name "llvm.fma." then
          (st2.1 ||| JL_TARGET_CLONE_MATH, st2.2)
        else if str_starts_with name "julia.cpu." then
          if str_starts_with name "julia.cpu.have_fma." then
            if (fma_known name).isNone then
              (st2.1 ||| JL_TARGET_CLONE_CPU, st2.2)
            else st2
          else (st2.1 ||| JL_TARGET_CLONE_CPU, st2.2)
        else st2
      | none => st2
    else if I.isStore then
      (if I.storeValVector then st.1 ||| JL_TARGET_CLONE_SIMD else st.1, st.2)
    else
      (if I.resultVector then st.1 ||| JL_TARGET_CLONE_SIMD else st.1, st.2)
  let st3 :=
    if I.isFPMath && I.fastFlags then (st1.1 ||| JL_TARGET_CLONE_MATH, st1.2)
    else st1
  if I.hasHalfOperand then (st3.1 ||| JL_TARGET_CLONE_FLOAT16, st3.2) else st3

/-- The bits one instruction contributes to the flag mask (normal form of
instr_step, used in proofs). -/
def step_or (fma_known : String → Option Bool) (I : Instr) : Nat :=
  (if I.isCall then
    (if I.callFTyVector then JL_TARGET_CLONE_SIMD else 0) |||
    (match I.calleeName with
     | some name =>
       if str_starts_with name "llvm.muladd." || str_starts_with name "llvm.fma." then
         JL_TARGET_CLONE_MATH
       else if str_starts_with name "julia.cpu." then
         if str_starts_with name "julia.cpu.have_fma." then
           if (fma_known name).isNone then JL_TARGET_CLONE_CPU else 0
         else JL_TARGET_CLONE_CPU
       else 0
     | none => 0)
  else if I.isStore then
    (if I.storeValVector then JL_TARGET_CLONE_SIMD else 0)
  else
    (if I.resultVector then JL_TARGET_CLONE_SIMD else 0)) |||
  (if I.isFPMath && I.fastFlags then JL_TARGET_CLONE_MATH else 0) |||
  (if I.hasHalfOperand then JL_TARGET_CLONE_FLOAT16 else 0)

/-- Whether one instruction sets the module-wide has_veccall flag. -/
def step_vec (I : Instr) : Bool := I.isCall && I.callFTyVector

theorem instr_step_eq (fma_known : String → Option Bool) (st : Nat × Bool)
    (I : Instr) :
    instr_step fma_known st I = (st.1 ||| step_or fma_known I, st.2 || step_vec I) := by
  rcases st with ⟨flag, vc⟩
  unfold instr_step step_or step_vec
  repeat' split
  all_goals simp_all [Nat.or_assoc, Nat.or_zero, Nat.zero_or,
    Bool.or_true, Bool.or_false]

/-- The early-exit instruction scan of collect_func_info: after each
instruction, if has_veccall is set and both the simd and math flags are set,
the loop returns immediately (lines 134-136). -/
def scan_insts (fma_known : String → Option Bool) :
    List Instr → Nat × Bool → Nat × Bool
  | [], st => st
  | I :: rest, st =>
    let st2 := instr_step fma_known st I
    if st2.2 = true ∧ st2.1 &&& JL_TARGET_CLONE_SIMD ≠ 0 ∧
        st2.1 &&& JL_TARGET_CLONE_MATH ≠ 0 then
      st2
    else
      scan_insts fma_known rest st2

/-- The same scan without the early exit: the full fold over all
instructions. -/
def scan_insts_full (fma_known : String → Option Bool)
    (l : List Instr) (st : Nat × Bool) : Nat × Bool :=
  l.foldl (instr_step fma_known) st

/-- Analyzer-relevant summary of one function body: whether LoopInfo is
nonempty, whether the function signature involves vector types
(is_vector(F.getFunctionType())), and the instruction stream. -/
structure FuncBody where
  hasLoop : Bool := false
  sigVector : Bool := false
  instrs : List Instr := []
deriving DecidableEq, Repr, Inhabited

/-- collect_func_info (lines 79-140): seeds the loop flag from LoopInfo and
the simd flag plus has_veccall from the signature, then scans the body with
the early exit.  has_veccall is the module-wide sticky flag threaded through
calls. -/
def collect_func_info (fma_known : String → Option Bool) (F : FuncBody)
    (has_veccall : Bool) : Nat × Bool :=
  let flag := if F.hasLoop then JL_TARGET_CLONE_LOOP else 0
  let st :=
    if F.sigVector then (flag ||| JL_TARGET_CLONE_SIMD, true)
    else (flag, has_veccall)
  scan_insts fma_known F.instrs st

/-- The hypothetical full scan of the same body: identical to
collect_func_info but without the early exit. -/
def collect_func_info_full (fma_known : String → Option Bool) (F : FuncBody)
    (has_veccall : Bool) : Nat × Bool :=
  let flag := if F.hasLoop then JL_TARGET_CLONE_LOOP else 0
  let st :=
    if F.sigVector then (flag ||| JL_TARGET_CLONE_SIMD, true)
    else (flag, has_veccall)
  scan_insts_full fma_known F.instrs st

/-- Submask order on flag words. -/
def subm (a b : Nat) : Prop := a ||| b = b

theorem subm_refl (a : Nat) : subm a a := Nat.or_self a

theorem subm_trans {a b c : Nat} (h1 : subm a b) (h2 : subm b c) : subm a c := by
  unfold subm at *
  rw [← h2, ← Nat.or_assoc, h1]

theorem subm_or_left (a b : Nat) : subm a (a ||| b) := by
  unfold subm
  rw [← Nat.or_assoc, Nat.or_self]

theorem subm_or_mono {d k : Nat} (a : Nat) (h : subm d k) :
    subm (a ||| d) (a ||| k) := by
  unfold subm at *
  rw [Nat.or_assoc, Nat.or_comm d (a ||| k), Nat.or_assoc, Nat.or_comm k d, h,
    ← Nat.or_assoc, Nat.or_self]

theorem subm_or_right (a b : Nat) : subm b (a ||| b) := by
  unfold subm
  rw [Nat.or_comm a b, ← Nat.or_assoc, Nat.or_self]

theorem subm_or_elim {a b c : Nat} (h1 : subm a c) (h2 : subm b c) :
    subm (a ||| b) c := by
  unfold subm at *
  rw [Nat.or_assoc, h2, h1]

theorem subm_testBit {a b : Nat} (h : subm a b) (i : Nat)
    (ha : a.testBit i = true) : b.testBit i = true := by
  have := congrArg (fun n => n.testBit i) h
  simp only [Nat.testBit_or, ha, Bool.true_or] at this
  exact this.symm

/-- The mask of bits an instruction step may add: simd, math, cpu-dispatch and
float16 (loop is decided before the loop from LoopInfo and never added by an
instruction). -/
def step_mask : Nat :=
  JL_TARGET_CLONE_SIMD ||| JL_TARGET_CLONE_MATH |||
  JL_TARGET_CLONE_CPU ||| JL_TARGET_CLONE_FLOAT16

theorem step_or_subm (fma_known : String → Option Bool) (I : Instr) :
    subm (step_or fma_known I) step_mask := by
  unfold step_or step_mask subm
  repeat' split
  all_goals decide

theorem step_flag_mono (fma_known : String → Option Bool) (st : Nat × Bool)
    (I : Instr) : subm st.1 (instr_step fma_known st I).1 := by
  rw [instr_step_eq]
  exact subm_or_left _ _

theorem step_vec_mono (fma_known : String → Option Bool) (st : Nat × Bool)
    (I : Instr) (h : st.2 = true) : (instr_step fma_known st I).2 = true := by
  rw [instr_step_eq]
  simp [h]

theorem step_flag_bound (fma_known : String → Option Bool) (st : Nat × Bool)
    (I : Instr) :
    subm (instr_step fma_known st I).1 (st.1 ||| step_mask) := by
  rw [instr_step_eq]
  exact subm_or_mono st.1 (step_or_subm fma_known I)

theorem full_flag_mono (fma_known : String → Option Bool) :
    ∀ (l : List Instr) (st : Nat × Bool),
      subm st.1 (scan_insts_full fma_known l st).1
  | [], st => subm_refl st.1
  | I :: l, st => by
    have h1 := step_flag_mono fma_known st I
    have h2 := full_flag_mono fma_known l (instr_step fma_known st I)
    exact subm_trans h1 h2

theorem full_vec_mono (fma_known : String → Option Bool) :
    ∀ (l : List Instr) (st : Nat × Bool), st.2 = true →
      (scan_insts_full fma_known l st).2 = true
  | [], _, h => h
  | I :: l, st, h =>
    full_vec_mono fma_known l (instr_step fma_known st I)
      (step_vec_mono fma_known st I h)

theorem full_flag_bound (fma_known : String → Option Bool) :
    ∀ (l : List Instr) (st : Nat × Bool),
      subm (scan_insts_full fma_known l st).1 (st.1 ||| step_mask)
  | [], st => subm_or_left st.1 step_mask
  | I :: l, st => by
    have h2 := full_flag_bound fma_known l (instr_step fma_known st I)
    have h3 : subm ((instr_step fma_known st I).1 ||| step_mask)
        (st.1 ||| step_mask) := by
      refine subm_or_elim ?_ (subm_or_right _ _)
      rw [instr_step_eq]
      exact subm_or_elim (subm_or_left _ _)
        (subm_trans (step_or_subm fma_known I) (subm_or_right _ _))
    exact subm_trans h2 h3

theorem scan_insts_cons (fma_known : String → Option Bool) (I : Instr)
    (l : List Instr) (st : Nat × Bool) :
    scan_insts fma_known (I :: l) st =
      if (instr_step fma_known st I).2 = true ∧
          (instr_step fma_known st I).1 &&& JL_TARGET_CLONE_SIMD ≠ 0 ∧
          (instr_step fma_known st I).1 &&& JL_TARGET_CLONE_MATH ≠ 0 then
        instr_step fma_known st I
      else scan_insts fma_known l (instr_step fma_known st I) := rfl

theorem scan_insts_full_cons (fma_known : String → Option Bool) (I : Instr)
    (l : List Instr) (st : Nat × Bool) :
    scan_insts_full fma_known (I :: l) st =
      scan_insts_full fma_known l (instr_step fma_known st I) := rfl

theorem scan_vs_full (fma_known : String → Option Bool) :
    ∀ (l : List Instr) (st : Nat × Bool),
      subm (scan_insts fma_known l st).1 (scan_insts_full fma_known l st).1 ∧
      subm (scan_insts_full fma_known l st).1
        ((scan_insts fma_known l st).1 ||| step_mask) ∧
      (scan_insts fma_known l st).2 = (scan_insts_full fma_known l st).2 ∧
      (scan_insts fma_known l st = scan_insts_full fma_known l st ∨
        ((scan_insts fma_known l st).1 &&& JL_TARGET_CLONE_SIMD ≠ 0 ∧
         (scan_insts fma_known l st).1 &&& JL_TARGET_CLONE_MATH ≠ 0))
  | [], st => by
    refine ⟨subm_refl _, subm_or_left _ _, rfl, Or.inl rfl⟩
  | I :: l, st => by
    rw [scan_insts_cons, scan_insts_full_cons]
    set st2 := instr_step fma_known st I with hst2
    by_cases hc : st2.2 = true ∧ st2.1 &&& JL_TARGET_CLONE_SIMD ≠ 0 ∧
        st2.1 &&& JL_TARGET_CLONE_MATH ≠ 0
    · rw [if_pos hc]
      refine ⟨full_flag_mono fma_known l st2, full_flag_bound fma_known l st2,
        ?_, Or.inr ⟨hc.2.1, hc.2.2⟩⟩
      rw [full_vec_mono fma_known l st2 hc.1]
      exact hc.1
    · rw [if_neg hc]
      exact scan_vs_full fma_known l st2

theorem testBit_of_and_ne_zero {a : Nat} {i : Nat}
    (h : a &&& (1 <<< i) ≠ 0) : a.testBit i = true := by
  rw [Nat.shiftLeft_eq, one_mul] at h
  rw [Nat.and_two_pow] at h
  cases hb : a.testBit i
  · rw [hb] at h
    simp at h
  · rfl

theorem agree_lsm {a b : Nat} (h1 : subm a b) (h2 : subm b (a ||| step_mask))
    (h3 : a = b ∨ (a &&& JL_TARGET_CLONE_SIMD ≠ 0 ∧
      a &&& JL_TARGET_CLONE_MATH ≠ 0)) :
    a &&& (JL_TARGET_CLONE_LOOP ||| JL_TARGET_CLONE_SIMD |||
        JL_TARGET_CLONE_MATH) =
      b &&& (JL_TARGET_CLONE_LOOP ||| JL_TARGET_CLONE_SIMD |||
        JL_TARGET_CLONE_MATH) := by
  rcases h3 with rfl | ⟨hs, hm⟩
  · rfl
  have ha2 : a.testBit 2 = true := testBit_of_and_ne_zero hs
  have ha3 : a.testBit 3 = true := testBit_of_and_ne_zero hm
  have hmask : JL_TARGET_CLONE_LOOP ||| JL_TARGET_CLONE_SIMD |||
      JL_TARGET_CLONE_MATH = 14 := by decide
  rw [hmask]
  apply Nat.eq_of_testBit_eq
  intro i
  simp only [Nat.testBit_and]
  cases hbit : (14 : Nat).testBit i
  · simp
  · have hi : i < 4 := by
      by_contra hge
      have h16 : (14 : Nat) < 2 ^ i := by
        calc (14 : Nat) < 2 ^ 4 := by norm_num
        _ ≤ 2 ^ i := Nat.pow_le_pow_right (by norm_num) (by omega)
      rw [Nat.testBit_eq_false_of_lt h16] at hbit
      cases hbit
    have key : a.testBit i = b.testBit i := by
      interval_cases i
      · exact absurd hbit (by decide)
      · cases haq : a.testBit 1
        · cases hbq : b.testBit 1
          · rfl
          · have := subm_testBit h2 1 hbq
            simp only [Nat.testBit_or] at this
            have hsm : step_mask.testBit 1 = false := by decide
            rw [hsm, haq] at this
            simp at this
        · rw [subm_testBit h1 1 haq]
      · rw [ha2, subm_testBit h1 2 ha2]
      · rw [ha3, subm_testBit h1 3 ha3]
    rw [key]

def fma_none : String → Option Bool := fun _ => none

/-- Concrete body refuting C2: a vector-signature function whose first
instruction has fast-math flags (so has_veccall, simd and math are all set
after one instruction, triggering the early exit) and whose second
instruction calls a julia.cpu. intrinsic that only a full scan would see. -/
def c2_body : FuncBody :=
  { hasLoop := false, sigVector := true,
    instrs := [{ isFPMath := true, fastFlags := true },
               { isCall := true, calleeName := some "julia.cpu.test" }] }

/-- C2 counterexample: the Feature Analyzer's early exit does not always
return the same flag bitmask as scanning the entire body; on c2_body the
early exit reports simd+math while the full scan additionally reports the
clone-cpu-dispatch flag. -/
theorem C2_counterexample :
    collect_func_info fma_none c2_body false ≠
      collect_func_info_full fma_none c2_body false := by
  decide

/-- C2 (amended): the early-exited scan of collect_func_info returns a
submask of the flags the full scan of the body would return, agrees with the
full scan on the module-wide vector-call flag and on the clone-loop,
clone-simd and clone-math bits; only clone-cpu-dispatch and clone-float16
flags of later instructions can be lost by the early exit. -/
theorem C2_early_exit_amended (fma_known : String → Option Bool)
    (F : FuncBody) (v : Bool) :
    (collect_func_info fma_known F v).1 |||
        (collect_func_info_full fma_known F v).1 =
      (collect_func_info_full fma_known F v).1 ∧
    (collect_func_info fma_known F v).2 =
      (collect_func_info_full fma_known F v).2 ∧
    (collect_func_info fma_known F v).1 &&&
        (JL_TARGET_CLONE_LOOP ||| JL_TARGET_CLONE_SIMD |||
          JL_TARGET_CLONE_MATH) =
      (collect_func_info_full fma_known F v).1 &&&
        (JL_TARGET_CLONE_LOOP ||| JL_TARGET_CLONE_SIMD |||
          JL_TARGET_CLONE_MATH) := by
  simp only [collect_func_info, collect_func_info_full]
  obtain ⟨h1, h2, h3, h4⟩ := scan_vs_full fma_known F.instrs
    (if F.sigVector then
      ((if F.hasLoop then JL_TARGET_CLONE_LOOP else 0) |||
        JL_TARGET_CLONE_SIMD, true)
    else ((if F.hasLoop then JL_TARGET_CLONE_LOOP else 0), v))
  exact ⟨h1, h3, agree_lsm h1 h2 (h4.imp (fun h => congrArg Prod.fst h) id)⟩

/-- One function of the module, abstracted to the observations the
multiversioning pass makes: its name, whether it has a body (isDeclaration /
empty), its analyzer body summary, its direct call-graph successors (the
CallGraphNode edges whose target function is non-null, in call-record order;
indices into the module function list), its type signature token, whether
is_vector holds of its function type, whether it is variadic, and the
julia.mv.reloc / julia.mv.clones attributes.  The reloc attribute is computed
by annotate_module_clones lines 219-242 from ConstantUses information that is
outside this model, so it is treated as an input mark. -/
structure MFunc where
  name : String := ""
  hasBody : Bool := true
  body : FuncBody := {}
  callees : List Nat := []
  sig : String := ""
  sigIsVector : Bool := false
  isVarArg : Bool := false
  relocAttr : Bool := false
  clonesAttr : Option Nat := none
deriving DecidableEq, Repr, Inhabited

/-- Indices of the functions annotate_module_clones collects in orig_funcs:
the module functions that are not declarations (lines 145-149). -/
def orig_idxs (funcs : List MFunc) : List Nat :=
  (List.range funcs.length).filter (fun i => (funcs.getD i default).hasBody)

/-- Call-graph successors of function i. -/
def calleesOf (funcs : List MFunc) (i : Nat) : List Nat :=
  (funcs.getD i default).callees

/-- The func_infos loop (lines 156-159): runs collect_func_info over every
original function, threading the module-wide has_veccall flag; returns the
per-function flag masks keyed by function index, plus the final flag. -/
def compute_infos (fma_known : String → Option Bool) (funcs : List MFunc) :
    List (Nat × Nat) × Bool :=
  (orig_idxs funcs).foldl
    (fun acc i =>
      let r := collect_func_info fma_known (funcs.getD i default).body acc.2
      (acc.1 ++ [(i, r.1)], r.2))
    ([], false)

/-- Association-list lookup with default 0. -/
def assoc_get (l : List (Nat × Nat)) (j : Nat) : Nat :=
  ((l.find? (fun p => p.1 == j)).map (fun p => p.2)).getD 0

/-- The body of the closure loop for a single candidate callee
(lines 184-206): a child c of a frontier function is added to all_origs and
to the next frontier iff it is not already in all_origs and at least one of
its own call-graph successors is already in all_origs, where all_origs is
consulted in its current, sequentially updated state. -/
def considerChild (funcs : List MFunc) (st : List Nat × List Nat) (c : Nat) :
    List Nat × List Nat :=
  if c ∈ st.1 then st
  else if (calleesOf funcs c).any (fun d => decide (d ∈ st.1)) then
    (st.1 ++ [c], st.2 ++ [c])
  else st

/-- Processing of one frontier member: consider each of its call-graph
children in order. -/
def processOne (funcs : List MFunc) (st : List Nat × List Nat) (f : Nat) :
    List Nat × List Nat :=
  (calleesOf funcs f).foldl (considerChild funcs) st

/-- One pass of the while loop (lines 180-210): process every frontier
member, collecting the next frontier. -/
def processFrontier (funcs : List MFunc) (allOrigs cur : List Nat) :
    List Nat × List Nat :=
  cur.foldl (processOne funcs) (allOrigs, [])

/-- Fuel bound for the frontier loop: every pass that does not terminate the
loop adds at least one element to all_origs, all added elements are distinct
and each is drawn from some callee list, so the number of passes is at most
the total length of all callee lists plus two. -/
def prop_fuel (funcs : List MFunc) : Nat :=
  funcs.foldr (fun f acc => f.callees.length + acc) 0 + 2

/-- The while loop of the subtarget branch (lines 180-210): repeat passes
until the frontier is empty. -/
def propagateAux (funcs : List MFunc) : Nat → List Nat → List Nat → List Nat
  | 0, allOrigs, _ => allOrigs
  | fuel + 1, allOrigs, cur =>
    if cur.isEmpty then allOrigs
    else
      let st := processFrontier funcs allOrigs cur
      propagateAux funcs fuel st.1 st.2

/-- The seed set sets[0] of a subtarget (lines 168-174): original functions
whose analyzer mask intersects the subtarget's selective clone flags. -/
def clone_seed (infos : List (Nat × Nat)) (flag : Nat) : List Nat :=
  (infos.filter (fun p => p.2 &&& flag != 0)).map (fun p => p.1)

/-- The full closure all_origs computed for one subtarget: seed plus the
frontier loop run to the empty frontier. -/
def subtarget_closure (funcs : List MFunc) (infos : List (Nat × Nat))
    (flag : Nat) : List Nat :=
  propagateAux funcs (prop_fuel funcs) (clone_seed infos flag)
    (clone_seed infos flag)

/-- One jl_target_spec_t: flag set, base index, code-generation cpu
name/features. -/
structure TargetSpec where
  flags : Nat := 0
  base : Int := 0
  cpuName : String := ""
  cpuFeatures : String := ""
deriving DecidableEq, Repr, Inhabited

/-- Initial clone bitmasks: APInt(specs.size(), 0) per original function
(line 152). -/
def clones0 (funcs : List MFunc) : List (Nat × Nat) :=
  (orig_idxs funcs).map (fun j => (j, 0))

/-- The body of the target loop of annotate_module_clones for one target i
(lines 160-218): a clone-all target sets bit i for every original function;
a subtarget sets bit i exactly for the members of its closure. -/
def clone_bit_step (funcs : List MFunc) (infos : List (Nat × Nat))
    (cl : List (Nat × Nat)) (i : Nat) (spec : TargetSpec) :
    List (Nat × Nat) :=
  if spec.flags &&& JL_TARGET_CLONE_ALL ≠ 0 then
    cl.map (fun p => (p.1, p.2 ||| (1 <<< i)))
  else
    cl.map (fun p =>
      if p.1 ∈ subtarget_closure funcs infos (spec.flags &&& clone_mask) then
        (p.1, p.2 ||| (1 <<< i))
      else p)

/-- The target loop folded over i = 1 .. specs.size()-1. -/
def annotate_fold (funcs : List MFunc) (infos : List (Nat × Nat))
    (specs : List TargetSpec) : List (Nat × Nat) :=
  ((List.range specs.length).drop 1).foldl
    (fun cl i => clone_bit_step funcs infos cl i (specs.getD i default))
    (clones0 funcs)

/-- The clone bitmasks annotate_module_clones computes, keyed by function
index.  A function receives the julia.mv.clones attribute iff its mask is
nonzero (lines 243-251). -/
def annotate_clone_masks (fma_known : String → Option Bool)
    (funcs : List MFunc) (specs : List TargetSpec) : List (Nat × Nat) :=
  annotate_fold funcs (compute_infos fma_known funcs).1 specs

/-- A closure member is accounted for by the propagation rule relative to a
witness set W: it is a seed member, or some W member has it as a direct
callee while one of its own direct callees is in W. -/
def Justified (funcs : List MFunc) (seed W : List Nat) (c : Nat) : Prop :=
  c ∈ seed ∨
    ((∃ p ∈ W, c ∈ calleesOf funcs p) ∧ ∃ d ∈ calleesOf funcs c, d ∈ W)

theorem Justified.mono {funcs : List MFunc} {seed W W' : List Nat} {c : Nat}
    (hW : ∀ x ∈ W, x ∈ W') (h : Justified funcs seed W c) :
    Justified funcs seed W' c := by
  rcases h with h | ⟨⟨p, hp, hcp⟩, ⟨d, hd, hdW⟩⟩
  · exact Or.inl h
  · exact Or.inr ⟨⟨p, hW p hp, hcp⟩, ⟨d, hd, hW d hdW⟩⟩

/-- Invariant of the propagation state (all_origs, next_set): every all_origs
member is justified, and the collected next frontier is inside all_origs. -/
def PropInv (funcs : List MFunc) (seed : List Nat)
    (st : List Nat × List Nat) : Prop :=
  (∀ c ∈ st.1, Justified funcs seed st.1 c) ∧ ∀ c ∈ st.2, c ∈ st.1

theorem considerChild_subset (funcs : List MFunc) (st : List Nat × List Nat)
    (c : Nat) : ∀ x ∈ st.1, x ∈ (considerChild funcs st c).1 := by
  intro x hx
  unfold considerChild
  split
  · exact hx
  · split
    · exact List.mem_append_left _ hx
    · exact hx

theorem considerChild_inv (funcs : List MFunc) (seed : List Nat)
    (st : List Nat × List Nat) (c : Nat)
    (hpar : ∃ p ∈ st.1, c ∈ calleesOf funcs p)
    (hinv : PropInv funcs seed st) :
    PropInv funcs seed (considerChild funcs st c) := by
  unfold considerChild
  split
  · exact hinv
  · split
    · rename_i hany
      rw [List.any_eq_true] at hany
      obtain ⟨d, hd, hdW⟩ := hany
      rw [decide_eq_true_eq] at hdW
      constructor
      · intro x hx
        rcases List.mem_append.mp hx with hx | hx
        · exact (hinv.1 x hx).mono (fun y hy => List.mem_append_left _ hy)
        · have hxc : x = c := by simpa using hx
          subst hxc
          obtain ⟨p, hp, hcp⟩ := hpar
          exact Or.inr ⟨⟨p, List.mem_append_left _ hp, hcp⟩,
            ⟨d, hd, List.mem_append_left _ hdW⟩⟩
      · intro x hx
        rcases List.mem_append.mp hx with hx | hx
        · exact List.mem_append_left _ (hinv.2 x hx)
        · exact List.mem_append_right _ hx
    · exact hinv

theorem foldCC_subset (funcs : List MFunc) :
    ∀ (l : List Nat) (st : List Nat × List Nat),
      ∀ x ∈ st.1, x ∈ (l.foldl (considerChild funcs) st).1
  | [], _ => fun _ hx => hx
  | c :: l, st => fun x hx =>
      foldCC_subset funcs l (considerChild funcs st c) x
        (considerChild_subset funcs st c x hx)

theorem foldCC_inv (funcs : List MFunc) (seed : List Nat) :
    ∀ (l : List Nat) (st : List Nat × List Nat) (f : Nat),
      (∀ c ∈ l, c ∈ calleesOf funcs f) → f ∈ st.1 →
      PropInv funcs seed st →
      PropInv funcs seed (l.foldl (considerChild funcs) st)
  | [], _, _, _, _, hinv => hinv
  | c :: l, st, f, hl, hf, hinv => by
      have h1 := considerChild_inv funcs seed st c ⟨f, hf, hl c (by simp)⟩ hinv
      exact foldCC_inv funcs seed l _ f (fun d hd => hl d (by simp [hd]))
        (considerChild_subset funcs st c f hf) h1

theorem processOne_inv (funcs : List MFunc) (seed : List Nat)
    (st : List Nat × List Nat) (f : Nat) (hf : f ∈ st.1)
    (hinv : PropInv funcs seed st) :
    PropInv funcs seed (processOne funcs st f) :=
  foldCC_inv funcs seed (calleesOf funcs f) st f (fun _ hc => hc) hf hinv

theorem processOne_subset (funcs : List MFunc) (st : List Nat × List Nat)
    (f : Nat) : ∀ x ∈ st.1, x ∈ (processOne funcs st f).1 :=
  foldCC_subset funcs (calleesOf funcs f) st

theorem foldPF_inv (funcs : List MFunc) (seed : List Nat) :
    ∀ (cur : List Nat) (st : List Nat × List Nat),
      (∀ f ∈ cur, f ∈ st.1) → PropInv funcs seed st →
      PropInv funcs seed (cur.foldl (processOne funcs) st) ∧
      ∀ x ∈ st.1, x ∈ (cur.foldl (processOne funcs) st).1
  | [], _, _, hinv => ⟨hinv, fun _ hx => hx⟩
  | f :: cur, st, hcur, hinv => by
      have h1 := processOne_inv funcs seed st f (hcur f (by simp)) hinv
      have h2 := processOne_subset funcs st f
      have h3 := foldPF_inv funcs seed cur (processOne funcs st f)
        (fun g hg => h2 g (hcur g (by simp [hg]))) h1
      exact ⟨h3.1, fun x hx => h3.2 x (h2 x hx)⟩

theorem propagateAux_sound (funcs : List MFunc) (seed : List Nat) :
    ∀ (fuel : Nat) (A cur : List Nat),
      (∀ f ∈ cur, f ∈ A) → (∀ c ∈ A, Justified funcs seed A c) →
      (∀ c ∈ propagateAux funcs fuel A cur,
        Justified funcs seed (propagateAux funcs fuel A cur) c) ∧
      ∀ x ∈ A, x ∈ propagateAux funcs fuel A cur
  | 0, _, _, _, hA => ⟨hA, fun _ hx => hx⟩
  | fuel + 1, A, cur, hcur, hA => by
      unfold propagateAux
      split
      · exact ⟨hA, fun _ hx => hx⟩
      · have h0 : PropInv funcs seed (A, []) := ⟨hA, by simp⟩
        have h1 := foldPF_inv funcs seed cur (A, []) hcur h0
        have h2 := propagateAux_sound funcs seed fuel
          (processFrontier funcs A cur).1 (processFrontier funcs A cur).2
          h1.1.2 h1.1.1
        exact ⟨h2.1, fun x hx => h2.2 x (h1.2 x hx)⟩

theorem subtarget_closure_sound (funcs : List MFunc)
    (infos : List (Nat × Nat)) (flag : Nat) :
    (∀ j ∈ clone_seed infos flag, j ∈ subtarget_closure funcs infos flag) ∧
    ∀ c ∈ subtarget_closure funcs infos flag,
      Justified funcs (clone_seed infos flag)
        (subtarget_closure funcs infos flag) c := by
  have h := propagateAux_sound funcs (clone_seed infos flag)
    (prop_fuel funcs) (clone_seed infos flag) (clone_seed infos flag)
    (fun _ hf => hf) (fun _ hc => Or.inl hc)
  exact ⟨h.2, h.1⟩

theorem testBit_or_shift_ne {i t : Nat} (m : Nat) (h : i ≠ t) :
    (m ||| (1 <<< i)).testBit t = m.testBit t := by
  have h1 : ((1 : Nat) <<< i).testBit t = false := by
    rw [Nat.testBit_shiftLeft]
    rcases Nat.lt_or_ge t i with hlt | hge
    · simp [Nat.not_le.mpr hlt]
    · have h2 : (1 : Nat) < 2 ^ (t - i) := by
        have h3 : 1 ≤ t - i := by omega
        calc (1 : Nat) < 2 ^ 1 := by norm_num
        _ ≤ 2 ^ (t - i) := Nat.pow_le_pow_right (by norm_num) h3
      simp [Nat.testBit_eq_false_of_lt h2]
  simp [Nat.testBit_or, h1]

theorem testBit_or_shift_self (i m : Nat) :
    (m ||| (1 <<< i)).testBit i = true := by
  simp [Nat.testBit_or, Nat.testBit_shiftLeft]

/-- Per-entry update function of clone_bit_step (normal form for proofs). -/
def clone_bit_fun (funcs : List MFunc) (infos : List (Nat × Nat)) (i : Nat)
    (spec : TargetSpec) (j m : Nat) : Nat :=
  if spec.flags &&& JL_TARGET_CLONE_ALL ≠ 0 then m ||| (1 <<< i)
  else if j ∈ subtarget_closure funcs infos (spec.flags &&& clone_mask) then
    m ||| (1 <<< i)
  else m

theorem clone_bit_step_eq (funcs : List MFunc) (infos : List (Nat × Nat))
    (cl : List (Nat × Nat)) (i : Nat) (spec : TargetSpec) :
    clone_bit_step funcs infos cl i spec =
      cl.map (fun p => (p.1, clone_bit_fun funcs infos i spec p.1 p.2)) := by
  unfold clone_bit_step clone_bit_fun
  by_cases h : spec.flags &&& JL_TARGET_CLONE_ALL ≠ 0
  · simp only [if_pos h]
  · simp only [if_neg h]
    apply List.map_congr_left
    intro p _
    by_cases h2 : p.1 ∈ subtarget_closure funcs infos
      (spec.flags &&& clone_mask)
    · simp [h2]
    · simp [h2]

theorem find?_map_keyed (l : List (Nat × Nat)) (g : Nat → Nat → Nat)
    (j : Nat) :
    (l.map (fun p => (p.1, g p.1 p.2))).find? (fun p => p.1 == j) =
      (l.find? (fun p => p.1 == j)).map (fun p => (p.1, g p.1 p.2)) := by
  induction l with
  | nil => rfl
  | cons p l ih =>
    by_cases h : p.1 == j
    · simp [List.find?, h]
    · simp only [List.map_cons, List.find?]
      simp only [h]
      exact ih

theorem clone_step_find (funcs : List MFunc) (infos : List (Nat × Nat))
    (cl : List (Nat × Nat)) (i : Nat) (spec : TargetSpec) (j m : Nat)
    (hm : cl.find? (fun p => p.1 == j) = some (j, m)) :
    (clone_bit_step funcs infos cl i spec).find? (fun p => p.1 == j) =
      some (j, clone_bit_fun funcs infos i spec j m) := by
  rw [clone_bit_step_eq, find?_map_keyed, hm]
  rfl

theorem assoc_get_of_find {cl : List (Nat × Nat)} {j m : Nat}
    (hm : cl.find? (fun p => p.1 == j) = some (j, m)) : assoc_get cl j = m := by
  unfold assoc_get
  rw [hm]
  rfl

theorem clone_bit_fun_frozen (funcs : List MFunc) (infos : List (Nat × Nat))
    {i t : Nat} (spec : TargetSpec) (j m : Nat) (h : i ≠ t) :
    (clone_bit_fun funcs infos i spec j m).testBit t = m.testBit t := by
  unfold clone_bit_fun
  split
  · exact testBit_or_shift_ne m h
  · split
    · exact testBit_or_shift_ne m h
    · rfl

theorem fold_clone_find (funcs : List MFunc) (infos : List (Nat × Nat))
    (specs : List TargetSpec) :
    ∀ (L : List Nat) (cl : List (Nat × Nat)) (j m : Nat),
      cl.find? (fun p => p.1 == j) = some (j, m) →
      ∃ m2, (L.foldl
          (fun cl i => clone_bit_step funcs infos cl i (specs.getD i default))
          cl).find? (fun p => p.1 == j) = some (j, m2)
  | [], _, _, m, hm => ⟨m, hm⟩
  | i :: L, cl, j, m, hm =>
      fold_clone_find funcs infos specs L _ j _
        (clone_step_find funcs infos cl i (specs.getD i default) j m hm)

theorem fold_bit_frozen (funcs : List MFunc) (infos : List (Nat × Nat))
    (specs : List TargetSpec) :
    ∀ (L : List Nat) (cl : List (Nat × Nat)) (j m t : Nat), t ∉ L →
      cl.find? (fun p => p.1 == j) = some (j, m) →
      (assoc_get (L.foldl
          (fun cl i => clone_bit_step funcs infos cl i (specs.getD i default))
          cl) j).testBit t = m.testBit t
  | [], _, _, m, _, _, hm => by rw [List.foldl_nil, assoc_get_of_find hm]
  | i :: L, cl, j, m, t, ht, hm => by
      have hne : i ≠ t := fun h => ht (h ▸ List.mem_cons_self i L)
      have h1 := clone_step_find funcs infos cl i (specs.getD i default) j m hm
      have h2 := fold_bit_frozen funcs infos specs L _ j _ t
        (fun h => ht (List.mem_cons_of_mem i h)) h1
      rw [List.foldl_cons, h2, clone_bit_fun_frozen funcs infos _ j m hne]

theorem map_pair_find (l : List Nat) (j : Nat) (hj : j ∈ l) :
    (l.map (fun x => (x, (0 : Nat)))).find? (fun p => p.1 == j) =
      some (j, 0) := by
  induction l with
  | nil => cases hj
  | cons x l ih =>
    by_cases h : x == j
    · have hx : x = j := by simpa using h
      subst hx
      simp [List.find?]
    · have hx : x ≠ j := by simpa using h
      rcases List.mem_cons.mp hj with h2 | h2
      · exact absurd h2.symm hx
      · simp only [List.map_cons, List.find?]
        simp only [h]
        exact ih h2

theorem clones0_find (funcs : List MFunc) (j : Nat)
    (hj : j ∈ orig_idxs funcs) :
    (clones0 funcs).find? (fun p => p.1 == j) = some (j, 0) :=
  map_pair_find (orig_idxs funcs) j hj

theorem range_drop_one_split {n t : Nat} (ht1 : 1 ≤ t) (ht2 : t < n) :
    (List.range n).drop 1 =
      List.range' 1 (t - 1) ++ t :: List.range' (t + 1) (n - t - 1) := by
  have h1 : List.range n = List.range' 0 n := List.range_eq_range' n
  have h2 : List.range' 0 n = 0 :: List.range' 1 (n - 1) := by
    have h3 : n = (n - 1) + 1 := by omega
    rw [h3]
    have := List.range'_succ 0 (n - 1) 1
    simpa using this
  rw [h1, h2, List.drop_one, List.tail_cons]
  have h4 : List.range' 1 (t - 1) ++ List.range' t (n - t) =
      List.range' 1 (n - 1) := by
    have := List.range'_append 1 (t - 1) (n - t) 1
    have he : 1 + 1 * (t - 1) = t := by omega
    have he2 : (n - t) + (t - 1) = n - 1 := by omega
    rw [he, he2] at this
    exact this
  have h5 : List.range' t (n - t) = t :: List.range' (t + 1) (n - t - 1) := by
    have h6 : n - t = (n - t - 1) + 1 := by omega
    rw [h6]
    have := List.range'_succ t (n - t - 1) 1
    simpa using this
  rw [← h4, h5]

theorem mem_range'_iff {x s m : Nat} : x ∈ List.range' s m ↔ s ≤ x ∧ x < s + m := by
  rw [List.mem_range']
  constructor
  · rintro ⟨i, hi, rfl⟩
    omega
  · rintro ⟨h1, h2⟩
    exact ⟨x - s, by omega, by omega⟩

/-- Bit t of the clone mask the target loop computes for original function j,
for any target 1 ≤ t < ntargets: true for a clone-all target, and membership
in the subtarget closure otherwise. -/
theorem annotate_bit (funcs : List MFunc) (infos : List (Nat × Nat))
    (specs : List TargetSpec) (j t : Nat) (hj : j ∈ orig_idxs funcs)
    (ht1 : 1 ≤ t) (ht2 : t < specs.length) :
    (assoc_get (annotate_fold funcs infos specs) j).testBit t =
      (if (specs.getD t default).flags &&& JL_TARGET_CLONE_ALL ≠ 0 then true
       else decide (j ∈ subtarget_closure funcs infos
         ((specs.getD t default).flags &&& clone_mask))) := by
  unfold annotate_fold
  rw [range_drop_one_split ht1 ht2, List.foldl_append, List.foldl_cons]
  have hL1 : t ∉ List.range' 1 (t - 1) := by
    rw [mem_range'_iff]
    omega
  have hL2 : t ∉ List.range' (t + 1) (specs.length - t - 1) := by
    rw [mem_range'_iff]
    omega
  obtain ⟨m1, hm1⟩ := fold_clone_find funcs infos specs
    (List.range' 1 (t - 1)) (clones0 funcs) j 0 (clones0_find funcs j hj)
  have hm1bit : m1.testBit t = false := by
    have := fold_bit_frozen funcs infos specs (List.range' 1 (t - 1))
      (clones0 funcs) j 0 t hL1 (clones0_find funcs j hj)
    rw [assoc_get_of_find hm1] at this
    rw [this, Nat.zero_testBit]
  have hstep := clone_step_find funcs infos _ t (specs.getD t default) j m1 hm1
  have hfrozen := fold_bit_frozen funcs infos specs
    (List.range' (t + 1) (specs.length - t - 1)) _ j _ t hL2 hstep
  rw [hfrozen]
  unfold clone_bit_fun
  split
  · rw [testBit_or_shift_self]
  · split
    · rename_i hmem
      rw [testBit_or_shift_self]
      exact (decide_eq_true hmem).symm
    · rename_i hmem
      rw [hm1bit]
      exact (decide_eq_false hmem).symm

/-- Concrete three-function module refuting the fixed-point half of C1:
function 0 calls 2 then 1 (in that call-record order), function 1 calls 0,
function 2 calls 1; only function 0 has a simd-flagged body. -/
def c1_funcs : List MFunc :=
  [{ name := "a", callees := [2, 1],
     body := { instrs := [{ resultVector := true }] } },
   { name := "b", callees := [0] },
   { name := "c", callees := [1] }]

def c1_infos : List (Nat × Nat) := (compute_infos fma_none c1_funcs).1

def c1_specs : List TargetSpec :=
  [{}, { flags := JL_TARGET_CLONE_SIMD }]

/-- C1 counterexample: on c1_funcs with the simd subtarget, function 2 is a
direct callee of closure member 0 and has a direct callee (1) inside the
final closed set, yet it is not in the set, and re-running the propagator on
the closed set does add it: the closure is not a fixed point of the
propagation rule and the membership condition of C1 does not characterize
the final set. -/
theorem C1_counterexample :
    (2 ∉ subtarget_closure c1_funcs c1_infos JL_TARGET_CLONE_SIMD ∧
     2 ∈ calleesOf c1_funcs 0 ∧
     0 ∈ subtarget_closure c1_funcs c1_infos JL_TARGET_CLONE_SIMD ∧
     (∃ d ∈ calleesOf c1_funcs 2,
       d ∈ subtarget_closure c1_funcs c1_infos JL_TARGET_CLONE_SIMD)) ∧
    propagateAux c1_funcs (prop_fuel c1_funcs)
        (subtarget_closure c1_funcs c1_infos JL_TARGET_CLONE_SIMD)
        (subtarget_closure c1_funcs c1_infos JL_TARGET_CLONE_SIMD) ≠
      subtarget_closure c1_funcs c1_infos JL_TARGET_CLONE_SIMD := by
  decide

/-- C1 (amended): for a subtarget t with selective flag set F, the propagator
computes a closure of the seed (functions whose analyzer mask intersects F)
over call-graph frontiers in which a candidate is added only when it is a
direct callee of a set member and one of its own direct callees is already in
the set at examination time; the seed is contained in the final set, every
non-seed member is a direct callee of a member and has a direct callee in the
final set, and the CloneSet bit of target t is set for an original function
iff it ended up in the final set.  (The final set need not be a fixed point:
a candidate examined before its callee entered the set is not revisited, so
re-running the propagator can add members.) -/
theorem C1_closure_amended (fma_known : String → Option Bool)
    (funcs : List MFunc) (specs : List TargetSpec) (j t : Nat)
    (hj : j ∈ orig_idxs funcs) (ht1 : 1 ≤ t) (ht2 : t < specs.length)
    (hsub : (specs.getD t default).flags &&& JL_TARGET_CLONE_ALL = 0) :
    (∀ s ∈ clone_seed (compute_infos fma_known funcs).1
        ((specs.getD t default).flags &&& clone_mask),
      s ∈ subtarget_closure funcs (compute_infos fma_known funcs).1
        ((specs.getD t default).flags &&& clone_mask)) ∧
    (∀ c ∈ subtarget_closure funcs (compute_infos fma_known funcs).1
        ((specs.getD t default).flags &&& clone_mask),
      c ∉ clone_seed (compute_infos fma_known funcs).1
          ((specs.getD t default).flags &&& clone_mask) →
      (∃ p ∈ subtarget_closure funcs (compute_infos fma_known funcs).1
          ((specs.getD t default).flags &&& clone_mask),
        c ∈ calleesOf funcs p) ∧
      ∃ d ∈ calleesOf funcs c,
        d ∈ subtarget_closure funcs (compute_infos fma_known funcs).1
          ((specs.getD t default).flags &&& clone_mask)) ∧
    ((assoc_get (annotate_clone_masks fma_known funcs specs) j).testBit t =
        true ↔
      j ∈ subtarget_closure funcs (compute_infos fma_known funcs).1
        ((specs.getD t default).flags &&& clone_mask)) := by
  have hsound := subtarget_closure_sound funcs (compute_infos fma_known funcs).1
    ((specs.getD t default).flags &&& clone_mask)
  refine ⟨hsound.1, ?_, ?_⟩
  · intro c hc hcseed
    rcases hsound.2 c hc with h | h
    · exact absurd h hcseed
    · exact h
  · have hbit := annotate_bit funcs (compute_infos fma_known funcs).1 specs j t
      hj ht1 ht2
    unfold annotate_clone_masks
    rw [hbit, if_neg (by simpa using hsub)]
    simp

/-- Witness for C1_closure_amended at the concrete module c1_funcs with the
simd subtarget at index 1. -/
theorem C1_witness :
    (0 ∈ orig_idxs c1_funcs ∧ 1 ≤ 1 ∧ 1 < c1_specs.length ∧
      (c1_specs.getD 1 default).flags &&& JL_TARGET_CLONE_ALL = 0) ∧
    ((assoc_get (annotate_clone_masks fma_none c1_funcs c1_specs) 0).testBit 1 =
        true ↔
      0 ∈ subtarget_closure c1_funcs (compute_infos fma_none c1_funcs).1
        ((c1_specs.getD 1 default).flags &&& clone_mask)) :=
  ⟨by decide,
    (C1_closure_amended fma_none c1_funcs c1_specs 0 1 (by decide) (by decide)
      (by decide) (by decide)).2.2⟩

/-- The module function list after annotate_module_clones has attached the
julia.mv.clones attribute: every function whose computed clone mask is
nonzero carries the mask (lines 243-251); others are unchanged. -/
def annotated_funcs (fma_known : String → Option Bool) (funcs : List MFunc)
    (specs : List TargetSpec) : List MFunc :=
  (List.range funcs.length).map (fun i =>
    let F := funcs.getD i default
    let m := assoc_get (annotate_clone_masks fma_known funcs specs) i
    if m ≠ 0 then { F with clonesAttr := some m } else F)

/-- The orig_funcs list CloneCtx collects (lines 395-399): module functions
that have a body or carry the julia.mv.clones attribute, paired with their
module index. -/
def ctx_orig_funcs (funcs : List MFunc) : List (Nat × MFunc) :=
  ((List.range funcs.length).filter (fun i =>
      (funcs.getD i default).hasBody ∨
        ((funcs.getD i default).clonesAttr).isSome)).map
    (fun i => (i, funcs.getD i default))

/-- One clone declaration created by CloneCtx::clone_decls: the original
function (by module index), the target index, and the target-qualified name
F.getName() + "." + i. -/
structure CloneDecl where
  origIdx : Nat
  target : Nat
  name : String
deriving DecidableEq, Repr, Inhabited

/-- The declarations clone_decls creates for one original function
(lines 440-456): nothing without the julia.mv.clones attribute; otherwise one
declaration per target index 1 <= i < ntargets whose mask bit is set. -/
def decls_for (specs : List TargetSpec) (idx : Nat) (F : MFunc) :
    List CloneDecl :=
  match F.clonesAttr with
  | none => []
  | some m =>
    ((List.range specs.length).drop 1).filterMap (fun i =>
      if m.testBit i then
        some { origIdx := idx, target := i,
               name := F.name ++ "." ++ toString i }
      else none)

/-- CloneCtx::clone_decls over the whole orig_funcs list. -/
def clone_decls (specs : List TargetSpec) :
    List (Nat × MFunc) → List CloneDecl
  | [] => []
  | e :: rest => decls_for specs e.1 e.2 ++ clone_decls specs rest

/-- The clone declarations produced by the composed pipeline: annotate the
module, collect CloneCtx's orig_funcs, then run clone_decls. -/
def pipeline_decls (fma_known : String → Option Bool) (funcs : List MFunc)
    (specs : List TargetSpec) : List CloneDecl :=
  clone_decls specs (ctx_orig_funcs (annotated_funcs fma_known funcs specs))

theorem range_drop_one (n : Nat) :
    (List.range n).drop 1 = List.range' 1 (n - 1) := by
  cases n with
  | zero => rfl
  | succ k =>
    rw [List.range_eq_range']
    have h2 : List.range' 0 (k + 1) = 0 :: List.range' 1 k := by
      have := List.range'_succ 0 k 1
      simpa using this
    rw [h2]
    rfl

theorem decls_for_mem {specs : List TargetSpec} {idx : Nat} {F : MFunc}
    {d : CloneDecl} (hd : d ∈ decls_for specs idx F) :
    d.origIdx = idx ∧ ∃ m, F.clonesAttr = some m ∧
      m.testBit d.target = true ∧ 1 ≤ d.target ∧ d.target < specs.length ∧
      d.name = F.name ++ "." ++ toString d.target := by
  unfold decls_for at hd
  match hattr : F.clonesAttr with
  | none => rw [hattr] at hd; cases hd
  | some m =>
    rw [hattr] at hd
    obtain ⟨i, hi, hfi⟩ := List.mem_filterMap.mp hd
    rw [range_drop_one, mem_range'_iff] at hi
    split at hfi
    · rename_i hbit
      cases hfi
      refine ⟨rfl, m, rfl, hbit, hi.1, ?_, rfl⟩
      show i < specs.length
      omega
    · cases hfi

theorem clone_decls_mem {specs : List TargetSpec} :
    ∀ {ctx : List (Nat × MFunc)} {d : CloneDecl},
      d ∈ clone_decls specs ctx → ∃ e ∈ ctx, d ∈ decls_for specs e.1 e.2 := by
  intro ctx
  induction ctx with
  | nil => intro d hd; cases hd
  | cons e rest ih =>
    intro d hd
    rcases List.mem_append.mp hd with hd | hd
    · exact ⟨e, List.mem_cons_self e rest, hd⟩
    · obtain ⟨e2, he2, hd2⟩ := ih hd
      exact ⟨e2, List.mem_cons_of_mem e he2, hd2⟩

theorem decls_for_filter_ne (specs : List TargetSpec) (idx : Nat) (F : MFunc)
    (j t : Nat) (hne : idx ≠ j) :
    (decls_for specs idx F).filter
      (fun d => d.origIdx == j && d.target == t) = [] := by
  rw [List.filter_eq_nil_iff]
  intro d hd
  have h1 := (decls_for_mem hd).1
  simp [h1, hne]

theorem filterMap_bit_filter_nil (idx : Nat) (nm : String) (m : Nat)
    (t : Nat) (L : List Nat) (hL : t ∉ L) :
    ((L.filterMap (fun i =>
        if m.testBit i then
          some { origIdx := idx, target := i,
                 name := nm ++ "." ++ toString i : CloneDecl }
        else none)).filter
      (fun d => d.origIdx == idx && d.target == t)) = [] := by
  rw [List.filter_eq_nil_iff]
  intro d hd
  obtain ⟨i, hi, hfi⟩ := List.mem_filterMap.mp hd
  split at hfi
  · cases hfi
    intro hpred
    simp only [Bool.and_eq_true, beq_iff_eq] at hpred
    exact hL (hpred.2 ▸ hi)
  · cases hfi

theorem decls_for_filter_self (specs : List TargetSpec) (idx : Nat)
    (F : MFunc) (t m : Nat) (hm : F.clonesAttr = some m) (ht1 : 1 ≤ t)
    (ht2 : t < specs.length) :
    (decls_for specs idx F).filter
        (fun d => d.origIdx == idx && d.target == t) =
      if m.testBit t then
        [{ origIdx := idx, target := t,
           name := F.name ++ "." ++ toString t }]
      else [] := by
  have hnil1 := filterMap_bit_filter_nil idx F.name m t (List.range' 1 (t - 1))
    (by rw [mem_range'_iff]; omega)
  have hnil2 := filterMap_bit_filter_nil idx F.name m t
    (List.range' (t + 1) (specs.length - t - 1))
    (by rw [mem_range'_iff]; omega)
  simp only [decls_for, hm]
  rw [range_drop_one_split ht1 ht2, List.filterMap_append, List.filter_append,
    hnil1, List.nil_append]
  cases hbit : m.testBit t
  · rw [List.filterMap_cons_none (by simp [hbit]), hnil2]
    simp [hbit]
  · have hcons : List.filterMap (fun i =>
        if m.testBit i = true then
          some { origIdx := idx, target := i,
                 name := F.name ++ "." ++ toString i : CloneDecl }
        else none) (t :: List.range' (t + 1) (specs.length - t - 1)) =
        { origIdx := idx, target := t,
          name := F.name ++ "." ++ toString t : CloneDecl } ::
          List.filterMap (fun i =>
            if m.testBit i = true then
              some { origIdx := idx, target := i,
                     name := F.name ++ "." ++ toString i : CloneDecl }
            else none) (List.range' (t + 1) (specs.length - t - 1)) := by
      simp [hbit]
    rw [hcons, List.filter_cons_of_pos (by simp), hnil2]
    simp [hbit]

theorem clone_decls_filter_nil (specs : List TargetSpec)
    (ctx : List (Nat × MFunc)) (j t : Nat) (hj : ∀ e ∈ ctx, e.1 ≠ j) :
    (clone_decls specs ctx).filter
      (fun d => d.origIdx == j && d.target == t) = [] := by
  rw [List.filter_eq_nil_iff]
  intro d hd
  obtain ⟨e, he, hd2⟩ := clone_decls_mem hd
  have h1 := (decls_for_mem hd2).1
  simp [h1, hj e he]

theorem clone_decls_filter_eq (specs : List TargetSpec) :
    ∀ (ctx : List (Nat × MFunc)) (j t : Nat),
      ((ctx.map (fun e => e.1)).Nodup) →
      ∀ e ∈ ctx, e.1 = j →
      (clone_decls specs ctx).filter
          (fun d => d.origIdx == j && d.target == t) =
        (decls_for specs j e.2).filter
          (fun d => d.origIdx == j && d.target == t)
  | [], _, _, _, e, he, _ => absurd he (List.not_mem_nil e)
  | e0 :: rest, j, t, hnd, e, he, hej => by
    rw [List.map_cons, List.nodup_cons] at hnd
    rcases List.mem_cons.mp he with rfl | he2
    · have hnil : ∀ e2 ∈ rest, e2.1 ≠ j := by
        intro e2 he2 hkey
        apply hnd.1
        have hmem : e2.1 ∈ rest.map (fun e => e.1) :=
          List.mem_map_of_mem (fun e => e.1) he2
        rw [hkey, ← hej] at hmem
        exact hmem
      show (decls_for specs e.1 e.2 ++ clone_decls specs rest).filter _ = _
      rw [List.filter_append, hej,
        clone_decls_filter_nil specs rest j t hnil, List.append_nil]
    · have hne : e0.1 ≠ j := by
        intro hkey
        apply hnd.1
        have hmem : e.1 ∈ rest.map (fun e => e.1) :=
          List.mem_map_of_mem (fun e => e.1) he2
        rw [hej, ← hkey] at hmem
        exact hmem
      show (decls_for specs e0.1 e0.2 ++ clone_decls specs rest).filter _ = _
      rw [List.filter_append, decls_for_filter_ne specs e0.1 e0.2 j t hne,
        List.nil_append]
      exact clone_decls_filter_eq specs rest j t hnd.2 e he2 hej

theorem fold_clone_keys (funcs : List MFunc) (infos : List (Nat × Nat))
    (specs : List TargetSpec) :
    ∀ (L : List Nat) (cl : List (Nat × Nat)),
      ((L.foldl
          (fun cl i => clone_bit_step funcs infos cl i (specs.getD i default))
          cl).map (fun p => p.1)) = cl.map (fun p => p.1)
  | [], _ => rfl
  | i :: L, cl => by
      rw [List.foldl_cons, fold_clone_keys funcs infos specs L _,
        clone_bit_step_eq, List.map_map]
      rfl

theorem clones0_keys (funcs : List MFunc) :
    (clones0 funcs).map (fun p => p.1) = orig_idxs funcs := by
  unfold clones0
  rw [List.map_map]
  exact List.map_id _

theorem annotate_masks_keys (fma_known : String → Option Bool)
    (funcs : List MFunc) (specs : List TargetSpec) :
    (annotate_clone_masks fma_known funcs specs).map (fun p => p.1) =
      orig_idxs funcs := by
  unfold annotate_clone_masks annotate_fold
  rw [fold_clone_keys, clones0_keys]

theorem assoc_get_mem_keys {l : List (Nat × Nat)} {j : Nat}
    (h : assoc_get l j ≠ 0) : j ∈ l.map (fun p => p.1) := by
  unfold assoc_get at h
  cases hf : l.find? (fun p => p.1 == j) with
  | none => rw [hf] at h; simp at h
  | some p =>
    have hp : p.1 = j := by simpa using List.find?_some hf
    exact hp ▸ List.mem_map_of_mem _ (List.mem_of_find?_eq_some hf)

theorem assoc_get_not_mem {l : List (Nat × Nat)} {j : Nat}
    (h : j ∉ l.map (fun p => p.1)) : assoc_get l j = 0 := by
  unfold assoc_get
  cases hf : l.find? (fun p => p.1 == j) with
  | none => rfl
  | some p =>
    exfalso
    apply h
    have hp : p.1 = j := by simpa using List.find?_some hf
    exact hp ▸ List.mem_map_of_mem _ (List.mem_of_find?_eq_some hf)

theorem orig_idxs_hasBody {funcs : List MFunc} {j : Nat}
    (h : j ∈ orig_idxs funcs) :
    j < funcs.length ∧ (funcs.getD j default).hasBody := by
  unfold orig_idxs at h
  have h2 := List.mem_filter.mp h
  exact ⟨List.mem_range.mp h2.1, by simpa using h2.2⟩

theorem mem_orig_idxs {funcs : List MFunc} {j : Nat} (h1 : j < funcs.length)
    (h2 : (funcs.getD j default).hasBody) : j ∈ orig_idxs funcs :=
  List.mem_filter.mpr ⟨List.mem_range.mpr h1, by simpa using h2⟩

theorem annotated_funcs_length (fma_known : String → Option Bool)
    (funcs : List MFunc) (specs : List TargetSpec) :
    (annotated_funcs fma_known funcs specs).length = funcs.length := by
  simp [annotated_funcs]

theorem annotated_funcs_getD (fma_known : String → Option Bool)
    (funcs : List MFunc) (specs : List TargetSpec) (j : Nat)
    (hj : j < funcs.length) :
    (annotated_funcs fma_known funcs specs).getD j default =
      (if assoc_get (annotate_clone_masks fma_known funcs specs) j ≠ 0 then
        { funcs.getD j default with
            clonesAttr :=
              some (assoc_get (annotate_clone_masks fma_known funcs specs) j) }
      else funcs.getD j default) := by
  unfold annotated_funcs
  rw [List.getD_eq_getElem?_getD, List.getElem?_map, List.getElem?_range hj]
  rfl

theorem ctx_orig_funcs_keys (funcs : List MFunc) :
    (ctx_orig_funcs funcs).map (fun e => e.1) =
      (List.range funcs.length).filter (fun i =>
        decide ((funcs.getD i default).hasBody ∨
          ((funcs.getD i default).clonesAttr).isSome)) := by
  unfold ctx_orig_funcs
  rw [List.map_map]
  exact List.map_id _

theorem ctx_orig_funcs_nodup (funcs : List MFunc) :
    ((ctx_orig_funcs funcs).map (fun e => e.1)).Nodup := by
  rw [ctx_orig_funcs_keys]
  exact (List.nodup_range _).filter _

theorem ctx_orig_funcs_mem_of {funcs : List MFunc} {j : Nat}
    (hj : j < funcs.length)
    (hkeep : (funcs.getD j default).hasBody ∨
      ((funcs.getD j default).clonesAttr).isSome) :
    (j, funcs.getD j default) ∈ ctx_orig_funcs funcs := by
  unfold ctx_orig_funcs
  exact List.mem_map_of_mem _
    (List.mem_filter.mpr ⟨List.mem_range.mpr hj, by simpa using hkeep⟩)

theorem ctx_orig_funcs_mem {funcs : List MFunc} {e : Nat × MFunc}
    (he : e ∈ ctx_orig_funcs funcs) :
    e.1 < funcs.length ∧ e.2 = funcs.getD e.1 default ∧
      ((funcs.getD e.1 default).hasBody ∨
        ((funcs.getD e.1 default).clonesAttr).isSome) := by
  unfold ctx_orig_funcs at he
  obtain ⟨i, hi, he2⟩ := List.mem_map.mp he
  have hf := List.mem_filter.mp hi
  cases he2
  exact ⟨List.mem_range.mp hf.1, rfl, by simpa using hf.2⟩

theorem getD_mem {funcs : List MFunc} {j : Nat} (hj : j < funcs.length) :
    funcs.getD j default ∈ funcs := by
  rw [List.getD_eq_getElem?_getD, List.getElem?_eq_getElem hj]
  exact List.getElem_mem hj

/-- C5: for every clone-all target t (a Group root other than baseline),
every module function with a body gets CloneSet bit t set by the annotate
pass and exactly one clone declaration with the target-qualified name
name.t from clone_decls, while functions without a body never produce a
clone declaration.  The hclean hypothesis states that the input module
carries no julia.mv.clones attribute before the annotate pass runs, which is
the pipeline precondition. -/
theorem C5_clone_all (fma_known : String → Option Bool) (funcs : List MFunc)
    (specs : List TargetSpec) (t j : Nat) (ht1 : 1 ≤ t)
    (ht2 : t < specs.length)
    (hca : (specs.getD t default).flags &&& JL_TARGET_CLONE_ALL ≠ 0)
    (hclean : ∀ F ∈ funcs, F.clonesAttr = none)
    (hj : j < funcs.length) (hbody : (funcs.getD j default).hasBody) :
    (assoc_get (annotate_clone_masks fma_known funcs specs) j).testBit t =
      true ∧
    (pipeline_decls fma_known funcs specs).filter
        (fun d => d.origIdx == j && d.target == t) =
      [{ origIdx := j, target := t,
         name := (funcs.getD j default).name ++ "." ++ toString t }] ∧
    ∀ d ∈ pipeline_decls fma_known funcs specs,
      (funcs.getD d.origIdx default).hasBody := by
  have hjo : j ∈ orig_idxs funcs := mem_orig_idxs hj hbody
  have hbit : (assoc_get (annotate_clone_masks fma_known funcs specs)
      j).testBit t = true := by
    unfold annotate_clone_masks
    rw [annotate_bit funcs _ specs j t hjo ht1 ht2, if_pos hca]
  have hmask0 : assoc_get (annotate_clone_masks fma_known funcs specs) j
      ≠ 0 := by
    intro h0
    rw [h0, Nat.zero_testBit] at hbit
    cases hbit
  have hAget := annotated_funcs_getD fma_known funcs specs j hj
  rw [if_pos hmask0] at hAget
  have hAlen := annotated_funcs_length fma_known funcs specs
  have hjA : j < (annotated_funcs fma_known funcs specs).length := by
    rw [hAlen]; exact hj
  have hctx : (j, (annotated_funcs fma_known funcs specs).getD j default) ∈
      ctx_orig_funcs (annotated_funcs fma_known funcs specs) :=
    ctx_orig_funcs_mem_of hjA (by rw [hAget]; exact Or.inl (by simpa using hbody))
  refine ⟨hbit, ?_, ?_⟩
  · unfold pipeline_decls
    rw [clone_decls_filter_eq specs _ j t (ctx_orig_funcs_nodup _) _ hctx rfl,
      decls_for_filter_self specs j _ t
        (assoc_get (annotate_clone_masks fma_known funcs specs) j)
        (by rw [hAget]) ht1 ht2,
      if_pos hbit, hAget]
  · intro d hd
    obtain ⟨e, he, hd2⟩ := clone_decls_mem hd
    obtain ⟨m, hm, _⟩ := (decls_for_mem hd2).2
    obtain ⟨helen, heget, _⟩ := ctx_orig_funcs_mem he
    have he1len : e.1 < funcs.length := by rw [← hAlen]; exact helen
    have hAget2 := annotated_funcs_getD fma_known funcs specs e.1 he1len
    rw [(decls_for_mem hd2).1]
    by_cases hz : assoc_get (annotate_clone_masks fma_known funcs specs) e.1
        ≠ 0
    · have hkeys := assoc_get_mem_keys hz
      rw [annotate_masks_keys] at hkeys
      exact (orig_idxs_hasBody hkeys).2
    · rw [if_neg hz] at hAget2
      rw [heget, hAget2] at hm
      rw [hclean (funcs.getD e.1 default) (getD_mem he1len)] at hm
      cases hm

/-- Two-function module for the C5 witness: one definition, one pure
declaration, with a clone-all target at index 1. -/
def c5_funcs : List MFunc := [{ name := "f" }, { name := "g", hasBody := false }]

def c5_specs : List TargetSpec := [{}, { flags := JL_TARGET_CLONE_ALL }]

/-- Witness for C5_clone_all: on c5_funcs with the clone-all target 1, the
defined function f gets bit 1 and exactly one declaration f.1. -/
theorem C5_witness :
    (1 ≤ 1 ∧ 1 < c5_specs.length ∧
      (c5_specs.getD 1 default).flags &&& JL_TARGET_CLONE_ALL ≠ 0 ∧
      (∀ F ∈ c5_funcs, F.clonesAttr = none) ∧
      0 < c5_funcs.length ∧ (c5_funcs.getD 0 default).hasBody) ∧
    (assoc_get (annotate_clone_masks fma_none c5_funcs c5_specs) 0).testBit 1 =
      true ∧
    (pipeline_decls fma_none c5_funcs c5_specs).filter
        (fun d => d.origIdx == 0 && d.target == 1) =
      [{ origIdx := 0, target := 1,
         name := (c5_funcs.getD 0 default).name ++ "." ++ toString 1 }] :=
  ⟨by decide, by
    have h := C5_clone_all fma_none c5_funcs c5_specs 1 0 (by decide)
      (by decide) (by decide) (by decide) (by decide) (by decide)
    exact ⟨h.1, h.2.1⟩⟩

/-- C6: for a non-clone-all target t, a function whose analyzer mask does not
intersect t's selective flags and which the call-graph closure does not
contain keeps CloneSet bit t unset and receives no clone declaration for
(F, t). -/
theorem C6_subtarget_unset (fma_known : String → Option Bool)
    (funcs : List MFunc) (specs : List TargetSpec) (t j : Nat) (ht1 : 1 ≤ t)
    (ht2 : t < specs.length)
    (hsub : (specs.getD t default).flags &&& JL_TARGET_CLONE_ALL = 0)
    (hclean : ∀ F ∈ funcs, F.clonesAttr = none)
    (hflag : assoc_get (compute_infos fma_known funcs).1 j &&&
      ((specs.getD t default).flags &&& clone_mask) = 0)
    (hnotin : j ∉ subtarget_closure funcs (compute_infos fma_known funcs).1
      ((specs.getD t default).flags &&& clone_mask)) :
    (assoc_get (annotate_clone_masks fma_known funcs specs) j).testBit t =
      false ∧
    (pipeline_decls fma_known funcs specs).filter
      (fun d => d.origIdx == j && d.target == t) = [] := by
  have hbit : (assoc_get (annotate_clone_masks fma_known funcs specs)
      j).testBit t = false := by
    by_cases hjo : j ∈ orig_idxs funcs
    · unfold annotate_clone_masks
      rw [annotate_bit funcs _ specs j t hjo ht1 ht2,
        if_neg (by simpa using hsub)]
      exact decide_eq_false hnotin
    · have hz : assoc_get (annotate_clone_masks fma_known funcs specs) j = 0 := by
        apply assoc_get_not_mem
        rw [annotate_masks_keys]
        exact hjo
      rw [hz, Nat.zero_testBit]
  refine ⟨hbit, ?_⟩
  unfold pipeline_decls
  have hAlen := annotated_funcs_length fma_known funcs specs
  by_cases hjlen : j < funcs.length
  · by_cases hbody : (funcs.getD j default).hasBody
    · have hjA : j < (annotated_funcs fma_known funcs specs).length := by
        rw [hAlen]; exact hjlen
      have hAget := annotated_funcs_getD fma_known funcs specs j hjlen
      have hctx : (j, (annotated_funcs fma_known funcs specs).getD j default)
          ∈ ctx_orig_funcs (annotated_funcs fma_known funcs specs) := by
        apply ctx_orig_funcs_mem_of hjA
        by_cases hz : assoc_get (annotate_clone_masks fma_known funcs specs) j
            ≠ 0
        · rw [hAget, if_pos hz]
          exact Or.inl (by simpa using hbody)
        · rw [hAget, if_neg hz]
          exact Or.inl hbody
      rw [clone_decls_filter_eq specs _ j t (ctx_orig_funcs_nodup _) _ hctx
        rfl]
      by_cases hz : assoc_get (annotate_clone_masks fma_known funcs specs) j
          ≠ 0
      · rw [hAget, if_pos hz] at *
        rw [decls_for_filter_self specs j _ t
          (assoc_get (annotate_clone_masks fma_known funcs specs) j) rfl ht1
          ht2, if_neg (by rw [hbit]; simp)]
      · rw [hAget, if_neg hz]
        have hnone := hclean (funcs.getD j default) (getD_mem hjlen)
        show (decls_for specs j (funcs.getD j default)).filter _ = _
        unfold decls_for
        rw [hnone]
        rfl
    · apply clone_decls_filter_nil
      intro e he hkey
      obtain ⟨helen, _, hkeep⟩ := ctx_orig_funcs_mem he
      rw [hkey] at hkeep
      have hAget := annotated_funcs_getD fma_known funcs specs j hjlen
      have hz : assoc_get (annotate_clone_masks fma_known funcs specs) j = 0 := by
        apply assoc_get_not_mem
        rw [annotate_masks_keys]
        intro hjo
        exact hbody (orig_idxs_hasBody hjo).2
      rw [hAget, if_neg (by simp [hz])] at hkeep
      rcases hkeep with hkeep | hkeep
      · exact hbody hkeep
      · rw [hclean (funcs.getD j default) (getD_mem hjlen)] at hkeep
        cases hkeep
  · apply clone_decls_filter_nil
    intro e he hkey
    obtain ⟨helen, _, _⟩ := ctx_orig_funcs_mem he
    rw [hAlen] at helen
    omega

/-- Witness for C6_subtarget_unset: on c1_funcs with the simd subtarget,
function 2 has no intersecting analyzer flags and is outside the closure, so
its bit stays unset and no declaration (2, 1) exists. -/
theorem C6_witness :
    (1 ≤ 1 ∧ 1 < c1_specs.length ∧
      (c1_specs.getD 1 default).flags &&& JL_TARGET_CLONE_ALL = 0 ∧
      (∀ F ∈ c1_funcs, F.clonesAttr = none) ∧
      assoc_get (compute_infos fma_none c1_funcs).1 2 &&&
        ((c1_specs.getD 1 default).flags &&& clone_mask) = 0 ∧
      2 ∉ subtarget_closure c1_funcs (compute_infos fma_none c1_funcs).1
        ((c1_specs.getD 1 default).flags &&& clone_mask)) ∧
    (assoc_get (annotate_clone_masks fma_none c1_funcs c1_specs) 2).testBit 1 =
      false ∧
    (pipeline_decls fma_none c1_funcs c1_specs).filter
      (fun d => d.origIdx == 2 && d.target == 1) = [] :=
  ⟨by decide,
    C6_subtarget_unset fma_none c1_funcs c1_specs 1 2 (by decide) (by decide)
      (by decide) (by decide) (by decide) (by decide)⟩

inductive Linkage
  | external
  | internal
deriving DecidableEq, Repr, Inhabited

inductive Visibility
  | defaultVis
  | hidden
deriving DecidableEq, Repr, Inhabited

/-- Value types of the data symbols this pass creates, on the modeled LP64
platform (sizeof(void*) == 8, the branch get_ptrdiff32 takes). -/
inductive LLVMTy
  | fnPtrTy (sig : String)
  | i32Ty
  | sizeTy
deriving DecidableEq, Repr, Inhabited

def LLVMTy.byteSize : LLVMTy → Nat
  | .fnPtrTy _ => 8
  | .i32Ty => 4
  | .sizeTy => 8

/-- A global data symbol (GlobalVariable): name, value type, linkage,
visibility, and whether it carries an initializer (the relocation slots are
either zero-initialized or uninitialized). -/
structure GVar where
  gname : String
  ty : LLVMTy
  linkage : Linkage
  visibility : Visibility
  hasInit : Bool
deriving DecidableEq, Repr, Inhabited

/-- A GlobalAlias whose aliasee is the function at the given module index. -/
structure GAlias where
  aname : String
  linkage : Linkage
  aliaseeIdx : Nat
deriving DecidableEq, Repr, Inhabited

/-- One of the two export tables (jl_fvars / jl_gvars): its name, the module
function indices of its initializer elements, and whether it has an
initializer that is a ConstantArray. -/
structure ExportGV where
  ename : String
  elems : List Nat := []
  hasInit : Bool := true
  initIsArray : Bool := true
deriving DecidableEq, Repr, Inhabited

inductive TailKind
  | musttail
  | tailcall
deriving DecidableEq, Repr, Inhabited

/-- The trampoline function rewrite_alias builds: it takes the alias's name,
has the aliasee's signature and the alias's linkage, loads the relocation
slot with !tbaa jtbaa_const and !invariant.load metadata, and tail-calls the
loaded pointer (musttail for variadic functions on the modeled non-ARM/PPC
platform). -/
structure Trampoline where
  tname : String
  sig : String
  linkage : Linkage
  slot : GVar
  loadInvariant : Bool
  loadTBAAConst : Bool
  tailKind : TailKind
deriving DecidableEq, Repr, Inhabited

/-- The module as seen by the CloneCtx phases: its name, functions, aliases,
the export tables, the data symbols created by the pass, and the trampolines
created by alias rewriting. -/
structure CModule where
  mname : String := ""
  funcs : List MFunc := []
  aliases : List GAlias := []
  exports : List ExportGV := []
  globals : List GVar := []
  tramps : List Trampoline := []
deriving DecidableEq, Repr, Inhabited

/-- consume_gv (lines 325-359): look up the export table by name, read its
elements (dropping bad entries only in allow_bad_fvars mode, which skips
declarations), and erase the global from the module.  The asserts on a
missing global or initializer abort, modeled as errors. -/
def consume_gv (m : CModule) (nm : String) (allowBad : Bool) :
    Except String (List Nat × CModule) :=
  match m.exports.find? (fun g => g.ename == nm) with
  | none => .error "assert: export table missing"
  | some g =>
    if g.hasInit = false then .error "assert: export table uninitialized"
    else
      let elems :=
        if allowBad then
          g.elems.filter (fun i => (m.funcs.getD i default).hasBody)
        else g.elems
      .ok (elems,
        { m with exports := m.exports.filter (fun g2 => g2.ename != nm) })

/-- The target loop of the CloneCtx constructor (lines 375-386) over the
remaining target indices: clone-all targets open a new group; any other
target must pass the assert 0 <= base < i and joins its base's group. -/
def build_groups_loop (specs : List TargetSpec) :
    List Nat → List Nat → List Nat → Except String (List Nat × List Nat)
  | [], roots, gids => .ok (roots, gids)
  | i :: rest, roots, gids =>
    let spec := specs.getD i default
    if spec.flags &&& JL_TARGET_CLONE_ALL ≠ 0 then
      build_groups_loop specs rest (roots ++ [i]) (gids ++ [roots.length])
    else if 0 ≤ spec.base ∧ spec.base < (i : Int) then
      build_groups_loop specs rest roots
        (gids ++ [gids.getD spec.base.toNat 0])
    else .error "assert: bad baseIndex"

def build_groups (specs : List TargetSpec) :
    Except String (List Nat × List Nat) :=
  build_groups_loop specs ((List.range specs.length).drop 1) [0] [0]

/-- The data the constructor collects: consumed fvars/gvars element lists and
the group structure. -/
structure CtxData where
  fvars : List Nat
  gvars : List Nat
  groupRoots : List Nat
  groupIds : List Nat
deriving DecidableEq, Repr, Inhabited

/-- CloneCtx constructor (lines 362-400): the member initializer list runs
consume_gv for jl_fvars and then jl_gvars BEFORE the constructor body
validates the target descriptors, so a validation failure happens on a
module whose export tables are already deleted; the error carries the module
state at the abort. -/
def CloneCtx_init (specs : List TargetSpec) (m : CModule) (allowBad : Bool) :
    Except (String × CModule) (CtxData × CModule) :=
  match consume_gv m "jl_fvars" allowBad with
  | .error e => .error (e, m)
  | .ok (fv, m1) =>
    match consume_gv m1 "jl_gvars" false with
    | .error e => .error (e, m1)
    | .ok (gvs, m2) =>
      match build_groups specs with
      | .error e => .error (e, m2)
      | .ok (roots, gids) => .ok (⟨fv, gvs, roots, gids⟩, m2)

/-- func_ids construction (lines 392-394) with get_func_id (lines 531-536):
func_ids[fvars[i]] = i + 1 with std::map overwrite semantics, so the id of a
function is its last zero-based position in fvars; querying a function that
is not an fvar fails the assert, modeled as none. -/
def get_func_id (fvars : List Nat) (f : Nat) : Option Nat :=
  ((fvars.enum.filter (fun p => p.2 == f)).map (fun p => p.1)).getLast?

/-- The slot maps of CloneCtx: const_relocs keyed by function id,
extern_relocs keyed by the function (its module index), plus the list of
created GlobalVariables in creation order. -/
structure SlotState where
  const_relocs : List (Nat × GVar) := []
  extern_relocs : List (Nat × GVar) := []
  created : List GVar := []
deriving DecidableEq, Repr, Inhabited

/-- std::map lookup over the insertion log: the last binding of the key. -/
def map_find (l : List (Nat × GVar)) (k : Nat) : Option GVar :=
  ((l.filter (fun p => p.1 == k)).map (fun p => p.2)).getLast?

/-- The extern relocation slot built for a declaration (line 422): external
linkage, no initializer, default visibility, pointer type, named
name.reloc_slot. -/
def externGV (F : MFunc) : GVar :=
  { gname := F.name ++ ".reloc_slot", ty := .fnPtrTy F.sig,
    linkage := .external, visibility := .defaultVis, hasInit := false }

/-- The constant relocation slot built for a definition (lines 425-427):
internal linkage, null initializer, hidden visibility, pointer type, named
name.reloc_slot. -/
def constGV (F : MFunc) : GVar :=
  { gname := F.name ++ ".reloc_slot", ty := .fnPtrTy F.sig,
    linkage := .internal, visibility := .hidden, hasInit := true }

/-- One iteration of prepare_slots (lines 416-432): functions marked
julia.mv.reloc (which asserts julia.mv.clones) get an externally-linked
uninitialized slot keyed by the function when they are declarations, and an
internal, hidden, zero-initialized slot keyed by their export id when they
have a body; either way the slot is a pointer-typed GlobalVariable named
name.reloc_slot. -/
def prepare_slot_step (fvars : List Nat) (st : SlotState) (e : Nat × MFunc) :
    Except String SlotState :=
  if e.2.relocAttr then
    if (e.2.clonesAttr).isNone then .error "assert: julia.mv.clones missing"
    else if e.2.hasBody = false then
      .ok { st with
        extern_relocs := st.extern_relocs ++ [(e.1, externGV e.2)],
        created := st.created ++ [externGV e.2] }
    else
      match get_func_id fvars e.1 with
      | none => .error "assert: Requesting id of non-fvar"
      | some id =>
        .ok { st with
          const_relocs := st.const_relocs ++ [(id, constGV e.2)],
          created := st.created ++ [constGV e.2] }
  else .ok st

def prepare_slots (fvars : List Nat) :
    List (Nat × MFunc) → SlotState → Except String SlotState
  | [], st => .ok st
  | e :: rest, st =>
    match prepare_slot_step fvars st e with
    | .error s => .error s
    | .ok st2 => prepare_slots fvars rest st2

def UINT32_MAX : Nat := 2 ^ 32 - 1

/-- get_reloc_slot (lines 659-671): a declaration resolves through
extern_relocs keyed by the function and reports id (uint32_t)-1; a definition
resolves its export id and looks it up in const_relocs; a missing slot fails
an assert. -/
def get_reloc_slot (fvars : List Nat) (st : SlotState) (e : Nat × MFunc) :
    Except String (Nat × GVar) :=
  if e.2.hasBody = false then
    match map_find st.extern_relocs e.1 with
    | none => .error "assert: Missing extern relocation slot"
    | some gv => .ok (UINT32_MAX, gv)
  else
    match get_func_id fvars e.1 with
    | none => .error "assert: Requesting id of non-fvar"
    | some id =>
      match map_find st.const_relocs id with
      | none => .error "assert: Missing relocation slot"
      | some gv => .ok (id, gv)

/-- The should_replace callback of fix_inst_uses (lines 733-741): an
instruction use of the callee is rewritten only when the containing function
carries the julia.mv.clone tag of exactly this group, and the inserted load
reads the callee's unique relocation slot from get_reloc_slot. -/
def inst_use_slot (fvars : List Nat) (st : SlotState) (e : Nat × MFunc)
    (callerCloneAttr : Option String) (grpidx : String) :
    Except String (Option GVar) :=
  if callerCloneAttr ≠ some grpidx then .ok none
  else (get_reloc_slot fvars st e).map (fun p => some p.2)

/-- rewrite_alias (lines 582-620): asserts the aliasee is not vector-typed,
creates a trampoline with the aliasee's signature that takes the alias's
name and linkage, erases the alias, loads the relocation slot (tagged
jtbaa_const and invariant.load) and tail-calls it (musttail when variadic on
the modeled non-ARM/PPC platform).  Assert failures abort the process; the
pre-abort module state is unobservable, so errors carry no module. -/
def rewrite_alias (fvars : List Nat) (st : SlotState) (m : CModule)
    (al : GAlias) (e : Nat × MFunc) : Except String CModule :=
  if e.2.sigIsVector then .error "assert: is_vector" else
  match get_reloc_slot fvars st e with
  | .error s => .error s
  | .ok p =>
    let tramp : Trampoline :=
      { tname := al.aname, sig := e.2.sig, linkage := al.linkage,
        slot := p.2, loadInvariant := true, loadTBAAConst := true,
        tailKind := if e.2.isVarArg then .musttail else .tailcall }
    .ok { m with aliases := m.aliases.erase al,
                 tramps := m.tramps ++ [tramp] }

def export_ok : Option ExportGV → Bool
  | none => false
  | some g => g.hasInit && g.initIsArray

/-- runMultiVersioning (lines 907-959): the sysimage guard returns false and
changes nothing; allow_bad_fvars with missing/non-array export tables also
bails out unchanged; otherwise the pass constructs the CloneCtx (consuming
the export tables), prepares relocation slots (adding the slot symbols) and
creates the clone declarations.  clone_bodies, the constant-initializer
rewriting of fix_gv_uses and the instruction rewriting of fix_inst_uses
operate on IR structure outside this module summary; their slot-level
behavior is modeled by rewrite_alias and inst_use_slot above, and
emit_metadata's offset tables by emit_offset_table below. -/
def runMultiVersioning (specs : List TargetSpec) (m : CModule)
    (allowBad : Bool) : Except String (Bool × CModule) :=
  if m.mname = "sysimage" then .ok (false, m)
  else
    let fv := m.exports.find? (fun g => g.ename == "jl_fvars")
    let gv := m.exports.find? (fun g => g.ename == "jl_gvars")
    if allowBad && (!(export_ok fv) || !(export_ok gv)) then .ok (false, m)
    else
      match CloneCtx_init specs m allowBad with
      | .error e => .error e.1
      | .ok (ctx, m1) =>
        let ctxfuncs := ctx_orig_funcs m1.funcs
        match prepare_slots ctx.fvars ctxfuncs {} with
        | .error s => .error s
        | .ok st =>
          let m2 := { m1 with globals := m1.globals ++ st.created }
          let decls := clone_decls specs ctxfuncs
          .ok (true,
            { m2 with funcs := m2.funcs ++ decls.map (fun d =>
                { name := d.name, hasBody := false }) })

/-- Validity of one non-baseline target entry as the constructor's assert
checks it: clone-all, or 0 <= base < i. -/
def spec_entry_ok (specs : List TargetSpec) (i : Nat) : Bool :=
  ((specs.getD i default).flags &&& JL_TARGET_CLONE_ALL != 0) ||
    (decide (0 ≤ (specs.getD i default).base) &&
      decide ((specs.getD i default).base < (i : Int)))

/-- The export list left behind once both tables are consumed. -/
def consumed_exports (m : CModule) : List ExportGV :=
  (m.exports.filter (fun g2 => g2.ename != "jl_fvars")).filter
    (fun g2 => g2.ename != "jl_gvars")

theorem build_groups_loop_err (specs : List TargetSpec) :
    ∀ (L : List Nat) (roots gids : List Nat),
      (∃ k ∈ L, spec_entry_ok specs k = false) →
      build_groups_loop specs L roots gids = .error "assert: bad baseIndex"
  | [], _, _, h => absurd h (by simp)
  | i :: L, roots, gids, h => by
      obtain ⟨k, hk, hbad⟩ := h
      unfold build_groups_loop
      by_cases hca : (specs.getD i default).flags &&& JL_TARGET_CLONE_ALL ≠ 0
      · rw [if_pos hca]
        apply build_groups_loop_err
        rcases List.mem_cons.mp hk with rfl | hk2
        · exfalso
          simp [spec_entry_ok, bne_iff_ne] at hbad
          simp only [← List.getD_eq_getElem?_getD] at hbad
          exact hca hbad.1
        · exact ⟨k, hk2, hbad⟩
      · rw [if_neg hca]
        by_cases hbase : 0 ≤ (specs.getD i default).base ∧
            (specs.getD i default).base < (i : Int)
        · rw [if_pos hbase]
          apply build_groups_loop_err
          rcases List.mem_cons.mp hk with rfl | hk2
          · exfalso
            simp [spec_entry_ok, bne_iff_ne] at hbad
            simp only [← List.getD_eq_getElem?_getD] at hbad
            exact absurd (hbad.2 hbase.1) (by simpa using hbase.2)
          · exact ⟨k, hk2, hbad⟩
        · rw [if_neg hbase]

/-- Module with both export tables for the C3 counterexample. -/
def c3_module : CModule :=
  { mname := "m",
    exports := [{ ename := "jl_fvars" }, { ename := "jl_gvars" }] }

/-- Malformed descriptor list: target 1 is not clone-all and has baseIndex 2,
violating base < 1. -/
def c3_specs : List TargetSpec := [{}, { base := 2 }]

/-- C3 counterexample: with the malformed list c3_specs the construction does
abort on validation, but only after both export tables have been consumed and
deleted: the module state at the failure has empty exports, refuting the
claim that no export table is consumed or deleted before the validation
failure is raised. -/
theorem C3_counterexample :
    CloneCtx_init c3_specs c3_module false =
      .error ("assert: bad baseIndex", { c3_module with exports := [] }) := by
  rfl

/-- C3 (amended): on a malformed TargetDescriptor list (some non-clone-all
target i with baseIndex outside [0, i)), the construction aborts in
validation after the two export tables have been consumed and deleted but
before any other mutation: the module at the failure differs from the input
exactly by the removal of jl_fvars and jl_gvars, with functions, aliases,
remaining data symbols and trampolines untouched and no symbol created. -/
theorem C3_validation_abort (specs : List TargetSpec) (m : CModule)
    (allowBad : Bool) (gf gg : ExportGV)
    (hfv : m.exports.find? (fun g => g.ename == "jl_fvars") = some gf)
    (hfi : gf.hasInit = true)
    (hgv : (m.exports.filter (fun g2 => g2.ename != "jl_fvars")).find?
        (fun g => g.ename == "jl_gvars") = some gg)
    (hgi : gg.hasInit = true)
    (hbad : ∃ k ∈ (List.range specs.length).drop 1,
      spec_entry_ok specs k = false) :
    CloneCtx_init specs m allowBad =
      .error ("assert: bad baseIndex",
        { m with exports := consumed_exports m }) := by
  have herr := build_groups_loop_err specs
    ((List.range specs.length).drop 1) [0] [0] hbad
  simp only [CloneCtx_init, consume_gv, hfv, hfi, hgv, hgi, build_groups,
    herr, consumed_exports]
  simp [hgv, hgi]

/-- Richer module for the C3 witness: an unrelated export table and a
function that must survive the abort untouched. -/
def c3w_module : CModule :=
  { mname := "w", funcs := [{ name := "f" }],
    exports := [{ ename := "jl_fvars", elems := [0] },
                { ename := "other" },
                { ename := "jl_gvars" }] }

/-- Witness for C3_validation_abort at c3w_module with c3_specs. -/
theorem C3_witness :
    (c3w_module.exports.find? (fun g => g.ename == "jl_fvars") =
        some { ename := "jl_fvars", elems := [0] } ∧
      (c3w_module.exports.filter (fun g2 => g2.ename != "jl_fvars")).find?
          (fun g => g.ename == "jl_gvars") = some { ename := "jl_gvars" } ∧
      (∃ k ∈ (List.range c3_specs.length).drop 1,
        spec_entry_ok c3_specs k = false)) ∧
    CloneCtx_init c3_specs c3w_module false =
      .error ("assert: bad baseIndex",
        { c3w_module with exports := consumed_exports c3w_module }) :=
  ⟨⟨rfl, rfl, 1, by decide, by decide⟩,
    C3_validation_abort c3_specs c3w_module false
      { ename := "jl_fvars", elems := [0] } { ename := "jl_gvars" } rfl rfl
      rfl rfl ⟨1, by decide, by decide⟩⟩

/-- C10: a module named sysimage makes runMultiVersioning return false with
the module entirely unchanged: no export table consumed, no clones, slots or
metadata created, independent of the target list and module contents. -/
theorem C10_sysimage_guard (specs : List TargetSpec) (m : CModule)
    (allowBad : Bool) (h : m.mname = "sysimage") :
    runMultiVersioning specs m allowBad = .ok (false, m) := by
  unfold runMultiVersioning
  rw [if_pos h]

/-- Nonempty module named sysimage for the C10 witness. -/
def c10_module : CModule :=
  { mname := "sysimage",
    funcs := [{ name := "f" }],
    exports := [{ ename := "jl_fvars", elems := [0] },
                { ename := "jl_gvars" }] }

/-- Witness for C10_sysimage_guard at c10_module. -/
theorem C10_witness :
    c10_module.mname = "sysimage" ∧
    runMultiVersioning c3_specs c10_module false = .ok (false, c10_module) :=
  ⟨rfl, C10_sysimage_guard c3_specs c10_module false rfl⟩

theorem mem_of_getLast? {α : Type} {l : List α} {a : α}
    (h : l.getLast? = some a) : a ∈ l := by
  have h2 := List.mem_getLast?_eq_getLast
    (show a ∈ l.getLast? by rw [h]; exact Option.mem_some_iff.mpr rfl)
  obtain ⟨hne, rfl⟩ := h2
  exact List.getLast_mem hne

theorem get_func_id_mem {fvars : List Nat} {f id : Nat}
    (h : get_func_id fvars f = some id) : fvars[id]? = some f := by
  unfold get_func_id at h
  have hmem := mem_of_getLast? h
  obtain ⟨p, hp, hp1⟩ := List.mem_map.mp hmem
  have hf := List.mem_filter.mp hp
  have hp2 : p.2 = f := by simpa using hf.2
  have hidx := List.mem_enum_iff_getElem?.mp hf.1
  rw [hp1, hp2] at hidx
  exact hidx

theorem get_func_id_inj {fvars : List Nat} {f g id : Nat}
    (h1 : get_func_id fvars f = some id)
    (h2 : get_func_id fvars g = some id) : f = g := by
  have e1 := get_func_id_mem h1
  have e2 := get_func_id_mem h2
  rw [e1] at e2
  exact Option.some.inj e2

theorem map_find_of_filter_eq {l : List (Nat × GVar)} {k : Nat} {gv : GVar}
    (h : l.filter (fun p => p.1 == k) = [(k, gv)]) : map_find l k = some gv := by
  unfold map_find
  rw [h]
  rfl

theorem filter_key_append_nil {l1 l2 : List (Nat × GVar)} {k : Nat}
    (h : ∀ p ∈ l2, p.1 ≠ k) :
    (l1 ++ l2).filter (fun p => p.1 == k) = l1.filter (fun p => p.1 == k) := by
  rw [List.filter_append]
  have h2 : l2.filter (fun p => p.1 == k) = [] := by
    rw [List.filter_eq_nil_iff]
    intro p hp
    simp [h p hp]
  rw [h2, List.append_nil]

/-- Case analysis of one successful prepare_slot_step. -/
theorem prepare_slot_step_cases {fvars : List Nat} {st : SlotState}
    {e : Nat × MFunc} {st2 : SlotState}
    (h : prepare_slot_step fvars st e = .ok st2) :
    (st2 = st ∧ e.2.relocAttr = false) ∨
    (e.2.relocAttr = true ∧ e.2.hasBody = false ∧
      st2 = { st with
        extern_relocs := st.extern_relocs ++ [(e.1, externGV e.2)],
        created := st.created ++ [externGV e.2] }) ∨
    (e.2.relocAttr = true ∧ e.2.hasBody = true ∧ ∃ id,
      get_func_id fvars e.1 = some id ∧
      st2 = { st with
        const_relocs := st.const_relocs ++ [(id, constGV e.2)],
        created := st.created ++ [constGV e.2] }) := by
  unfold prepare_slot_step at h
  by_cases hr : e.2.relocAttr = true
  · rw [if_pos hr] at h
    split at h
    · cases h
    · by_cases hb : e.2.hasBody = false
      · rw [if_pos hb] at h
        exact Or.inr (Or.inl ⟨hr, hb, (Except.ok.inj h).symm⟩)
      · rw [if_neg hb] at h
        match hid : get_func_id fvars e.1 with
        | none => rw [hid] at h; cases h
        | some id =>
          rw [hid] at h
          exact Or.inr (Or.inr ⟨hr, by simpa using hb, id, rfl,
            (Except.ok.inj h).symm⟩)
  · rw [if_neg hr] at h
    exact Or.inl ⟨(Except.ok.inj h).symm, by simpa using hr⟩

/-- Successful prepare_slots only appends entries, and every appended entry
is attributable to a processed function. -/
theorem prepare_slots_extends (fvars : List Nat) :
    ∀ (ctx : List (Nat × MFunc)) (st0 st : SlotState),
      prepare_slots fvars ctx st0 = .ok st →
      ∃ dc de dcr,
        st.const_relocs = st0.const_relocs ++ dc ∧
        st.extern_relocs = st0.extern_relocs ++ de ∧
        st.created = st0.created ++ dcr ∧
        (∀ p ∈ dc, ∃ e2 ∈ ctx, e2.2.hasBody = true ∧
          get_func_id fvars e2.1 = some p.1) ∧
        (∀ p ∈ de, ∃ e2 ∈ ctx, e2.2.hasBody = false ∧ p.1 = e2.1) ∧
        (∀ gv ∈ dcr, ∃ s, gv.ty = LLVMTy.fnPtrTy s)
  | [], st0, st, h => by
      have hst : st0 = st := Except.ok.inj h
      subst hst
      exact ⟨[], [], [], by simp, by simp, by simp, by simp, by simp, by simp⟩
  | e :: rest, st0, st, h => by
      unfold prepare_slots at h
      match hstep : prepare_slot_step fvars st0 e with
      | .error s => rw [hstep] at h; cases h
      | .ok st1 =>
        rw [hstep] at h
        obtain ⟨dc, de, dcr, h1, h2, h3, h4, h5, h6⟩ :=
          prepare_slots_extends fvars rest st1 st h
        rcases prepare_slot_step_cases hstep with
          ⟨rfl, _⟩ | ⟨hr, hb, rfl⟩ | ⟨hr, hb, id, hid, rfl⟩
        · exact ⟨dc, de, dcr, h1, h2, h3,
            fun p hp => (h4 p hp).elim
              (fun e2 he2 => ⟨e2, List.mem_cons_of_mem e he2.1, he2.2⟩),
            fun p hp => (h5 p hp).elim
              (fun e2 he2 => ⟨e2, List.mem_cons_of_mem e he2.1, he2.2⟩),
            h6⟩
        · refine ⟨dc, (e.1, externGV e.2) :: de, externGV e.2 :: dcr,
            by simpa using h1, by simpa [List.append_assoc] using h2,
            by simpa [List.append_assoc] using h3, ?_, ?_, ?_⟩
          · intro p hp
            obtain ⟨e2, he2, hprop⟩ := h4 p hp
            exact ⟨e2, List.mem_cons_of_mem e he2, hprop⟩
          · intro p hp
            rcases List.mem_cons.mp hp with rfl | hp2
            · exact ⟨e, List.mem_cons_self e rest, hb, rfl⟩
            · obtain ⟨e2, he2, hprop⟩ := h5 p hp2
              exact ⟨e2, List.mem_cons_of_mem e he2, hprop⟩
          · intro gv hgv
            rcases List.mem_cons.mp hgv with rfl | hgv2
            · exact ⟨e.2.sig, rfl⟩
            · exact h6 gv hgv2
        · refine ⟨(id, constGV e.2) :: dc, de, constGV e.2 :: dcr,
            by simpa [List.append_assoc] using h1, by simpa using h2,
            by simpa [List.append_assoc] using h3, ?_, ?_, ?_⟩
          · intro p hp
            rcases List.mem_cons.mp hp with rfl | hp2
            · exact ⟨e, List.mem_cons_self e rest, hb, hid⟩
            · obtain ⟨e2, he2, hprop⟩ := h4 p hp2
              exact ⟨e2, List.mem_cons_of_mem e he2, hprop⟩
          · intro p hp
            obtain ⟨e2, he2, hprop⟩ := h5 p hp
            exact ⟨e2, List.mem_cons_of_mem e he2, hprop⟩
          · intro gv hgv
            rcases List.mem_cons.mp hgv with rfl | hgv2
            · exact ⟨e.2.sig, rfl⟩
            · exact h6 gv hgv2

/-- After a successful prepare_slots run from a state that holds no binding
for the function yet, a reloc-marked function has exactly the one slot its
own iteration created, under the key the code uses (export id for
definitions, the function itself for declarations). -/
theorem prepare_slots_find (fvars : List Nat) :
    ∀ (ctx : List (Nat × MFunc)) (st0 st : SlotState) (e : Nat × MFunc),
      prepare_slots fvars ctx st0 = .ok st → e ∈ ctx →
      e.2.relocAttr = true →
      ((ctx.map (fun x => x.1)).Nodup) →
      (∀ k, get_func_id fvars e.1 = some k →
        st0.const_relocs.filter (fun p => p.1 == k) = []) →
      st0.extern_relocs.filter (fun p => p.1 == e.1) = [] →
      (e.2.hasBody = false →
        st.extern_relocs.filter (fun p => p.1 == e.1) =
          [(e.1, externGV e.2)]) ∧
      (e.2.hasBody = true → ∃ id, get_func_id fvars e.1 = some id ∧
        st.const_relocs.filter (fun p => p.1 == id) = [(id, constGV e.2)])
  | [], _, _, e, _, he, _, _, _, _ => absurd he (List.not_mem_nil e)
  | e0 :: rest, st0, st, e, hok, he, hreloc, hnd, h0c, h0e => by
      rw [List.map_cons, List.nodup_cons] at hnd
      unfold prepare_slots at hok
      match hstep : prepare_slot_step fvars st0 e0 with
      | .error s => rw [hstep] at hok; cases hok
      | .ok st1 =>
        rw [hstep] at hok
        rcases List.mem_cons.mp he with rfl | he2
        · obtain ⟨dc, de, dcr, h1, h2, h3, h4, h5, _⟩ :=
            prepare_slots_extends fvars rest st1 st hok
          have hrestkeys : ∀ e2 ∈ rest, e2.1 ≠ e.1 := by
            intro e2 he2 hkey
            exact hnd.1 (hkey ▸ List.mem_map_of_mem (fun x => x.1) he2)
          rcases prepare_slot_step_cases hstep with
            ⟨_, hr⟩ | ⟨_, hb, rfl⟩ | ⟨_, hb, id, hid, rfl⟩
          · rw [hreloc] at hr; cases hr
          · constructor
            · intro _
              rw [h2]
              have hde : ∀ p ∈ de, p.1 ≠ e.1 := by
                intro p hp hkey
                obtain ⟨e2, he2m, _, hpe⟩ := h5 p hp
                exact hrestkeys e2 he2m (by rw [← hpe, hkey])
              rw [filter_key_append_nil hde]
              show ((st0.extern_relocs ++ [(e.1, externGV e.2)]).filter _) = _
              rw [List.filter_append, h0e, List.nil_append]
              simp
            · intro hb2
              rw [hb2] at hb
              cases hb
          · constructor
            · intro hb2
              rw [hb2] at hb
              cases hb
            · intro _
              refine ⟨id, hid, ?_⟩
              rw [h1]
              have hdc : ∀ p ∈ dc, p.1 ≠ id := by
                intro p hp hkey
                obtain ⟨e2, he2m, _, hide2⟩ := h4 p hp
                have hkey2 : e2.1 = e.1 :=
                  get_func_id_inj (hkey ▸ hide2) hid
                exact hrestkeys e2 he2m hkey2
              rw [filter_key_append_nil hdc]
              show ((st0.const_relocs ++ [(id, constGV e.2)]).filter _) = _
              rw [List.filter_append, h0c id hid, List.nil_append]
              simp
        · have hne : e0.1 ≠ e.1 := by
            intro hkey
            exact hnd.1 (hkey ▸ List.mem_map_of_mem (fun x => x.1) he2)
          rcases prepare_slot_step_cases hstep with
            ⟨rfl, _⟩ | ⟨_, _, rfl⟩ | ⟨_, _, id0, hid0, rfl⟩
          · exact prepare_slots_find fvars rest _ st e hok he2 hreloc hnd.2
              h0c h0e
          · apply prepare_slots_find fvars rest _ st e hok he2 hreloc hnd.2
            · intro k hk
              exact h0c k hk
            · show ((st0.extern_relocs ++
                [(e0.1, externGV e0.2)]).filter _) = []
              rw [List.filter_append, h0e, List.nil_append]
              simp [hne]
          · apply prepare_slots_find fvars rest _ st e hok he2 hreloc hnd.2
            · intro k hk
              show ((st0.const_relocs ++
                [(id0, constGV e0.2)]).filter _) = []
              rw [List.filter_append, h0c k hk, List.nil_append]
              have hneid : id0 ≠ k := by
                intro hkey
                exact hne (get_func_id_inj (hkey ▸ hid0) hk)
              simp [hneid]
            · exact h0e

/-- C7: a function marked julia.mv.reloc gets, when it has a body, a
constant-relocation slot with internal linkage, a (zero) initializer and
hidden visibility keyed by its export id, and when it is a pure declaration
an extern-relocation slot with external linkage and no initializer keyed by
the function symbol; in both cases the slot is a pointer-sized data symbol
named name.reloc_slot. -/
theorem C7_slot_classification (fvars : List Nat) (ctx : List (Nat × MFunc))
    (st : SlotState) (e : Nat × MFunc)
    (hok : prepare_slots fvars ctx {} = .ok st)
    (he : e ∈ ctx) (hreloc : e.2.relocAttr = true)
    (hnd : (ctx.map (fun x => x.1)).Nodup) :
    (e.2.hasBody = true → ∃ id, get_func_id fvars e.1 = some id ∧
      map_find st.const_relocs id =
        some { gname := e.2.name ++ ".reloc_slot",
               ty := LLVMTy.fnPtrTy e.2.sig, linkage := .internal,
               visibility := .hidden, hasInit := true }) ∧
    (e.2.hasBody = false →
      map_find st.extern_relocs e.1 =
        some { gname := e.2.name ++ ".reloc_slot",
               ty := LLVMTy.fnPtrTy e.2.sig, linkage := .external,
               visibility := .defaultVis, hasInit := false }) ∧
    ∀ gv ∈ st.created, gv.ty.byteSize = 8 := by
  have hfind := prepare_slots_find fvars ctx {} st e hok he hreloc hnd
    (fun _ _ => rfl) rfl
  refine ⟨?_, ?_, ?_⟩
  · intro hb
    obtain ⟨id, hid, hfil⟩ := hfind.2 hb
    exact ⟨id, hid, map_find_of_filter_eq hfil⟩
  · intro hb
    exact map_find_of_filter_eq (hfind.1 hb)
  · intro gv hgv
    obtain ⟨dc, de, dcr, _, _, h3, _, _, h6⟩ :=
      prepare_slots_extends fvars ctx {} st hok
    rw [h3] at hgv
    obtain ⟨s, hs⟩ := h6 gv (by simpa using hgv)
    rw [hs]
    rfl

/-- Reloc-marked definition used by the C7/C8/C9 witnesses. -/
def c8_fn : MFunc :=
  { name := "f", relocAttr := true, clonesAttr := some 2, sig := "sigf" }

/-- Reloc-marked pure declaration used by the C7 witness. -/
def c8_gn : MFunc :=
  { name := "g", hasBody := false, relocAttr := true, clonesAttr := some 2,
    sig := "sigg" }

def c7_fvars : List Nat := [0]

def c7_ctx : List (Nat × MFunc) := [(0, c8_fn), (1, c8_gn)]

/-- The slot state prepare_slots computes on c7_ctx. -/
def c7_state : SlotState :=
  { const_relocs := [(0, constGV c8_fn)],
    extern_relocs := [(1, externGV c8_gn)],
    created := [constGV c8_fn, externGV c8_gn] }

/-- Witness for C7_slot_classification at the declaration (1, c8_gn). -/
theorem C7_witness :
    (prepare_slots c7_fvars c7_ctx {} = .ok c7_state ∧
      (1, c8_gn) ∈ c7_ctx ∧ c8_gn.relocAttr = true ∧
      ((c7_ctx.map (fun x => x.1)).Nodup) ∧ c8_gn.hasBody = false) ∧
    map_find c7_state.extern_relocs 1 =
      some { gname := c8_gn.name ++ ".reloc_slot",
             ty := LLVMTy.fnPtrTy c8_gn.sig, linkage := .external,
             visibility := .defaultVis, hasInit := false } :=
  ⟨⟨rfl, by decide, rfl, by decide, rfl⟩,
    (C7_slot_classification c7_fvars c7_ctx c7_state (1, c8_gn) rfl
      (by decide) rfl (by decide)).2.1 rfl⟩

/-- C8: a reloc-marked function with a body has exactly one relocation slot
(one const_relocs binding under its export id); get_reloc_slot returns that
single slot, every rewritten call site (the fix_inst_uses callback) loads
that same slot, and the alias trampoline built for the function loads that
same slot; no operation creates a second slot. -/
theorem C8_unique_shared_slot (fvars : List Nat) (ctx : List (Nat × MFunc))
    (st : SlotState) (e : Nat × MFunc)
    (hok : prepare_slots fvars ctx {} = .ok st)
    (he : e ∈ ctx) (hreloc : e.2.relocAttr = true)
    (hnd : (ctx.map (fun x => x.1)).Nodup)
    (hbody : e.2.hasBody = true) :
    ∃ id gv, get_func_id fvars e.1 = some id ∧
      st.const_relocs.filter (fun p => p.1 == id) = [(id, gv)] ∧
      get_reloc_slot fvars st e = .ok (id, gv) ∧
      (∀ grp : String, inst_use_slot fvars st e (some grp) grp =
        .ok (some gv)) ∧
      (e.2.sigIsVector = false → ∀ (m : CModule) (al : GAlias),
        rewrite_alias fvars st m al e =
          .ok { m with
                aliases := m.aliases.erase al,
                tramps := m.tramps ++
                  [{ tname := al.aname, sig := e.2.sig,
                     linkage := al.linkage, slot := gv,
                     loadInvariant := true, loadTBAAConst := true,
                     tailKind := if e.2.isVarArg then TailKind.musttail
                       else TailKind.tailcall }] }) := by
  have hfind := prepare_slots_find fvars ctx {} st e hok he hreloc hnd
    (fun _ _ => rfl) rfl
  obtain ⟨id, hid, hfil⟩ := hfind.2 hbody
  have hslot : get_reloc_slot fvars st e = .ok (id, constGV e.2) := by
    unfold get_reloc_slot
    rw [if_neg (by rw [hbody]; simp)]
    simp only [hid, map_find_of_filter_eq hfil]
  refine ⟨id, constGV e.2, hid, hfil, hslot, ?_, ?_⟩
  · intro grp
    unfold inst_use_slot
    rw [if_neg (by simp), hslot]
    rfl
  · intro hvec m al
    unfold rewrite_alias
    rw [if_neg (by simp [hvec]), hslot]

/-- Witness for C8_unique_shared_slot at the definition (0, c8_fn). -/
theorem C8_witness :
    (prepare_slots c7_fvars c7_ctx {} = .ok c7_state ∧
      (0, c8_fn) ∈ c7_ctx ∧ c8_fn.relocAttr = true ∧
      ((c7_ctx.map (fun x => x.1)).Nodup) ∧ c8_fn.hasBody = true) ∧
    (∃ id gv, get_func_id c7_fvars 0 = some id ∧
      c7_state.const_relocs.filter (fun p => p.1 == id) = [(id, gv)] ∧
      get_reloc_slot c7_fvars c7_state (0, c8_fn) = .ok (id, gv) ∧
      (∀ grp : String,
        inst_use_slot c7_fvars c7_state (0, c8_fn) (some grp) grp =
          .ok (some gv)) ∧
      (c8_fn.sigIsVector = false → ∀ (m : CModule) (al : GAlias),
        rewrite_alias c7_fvars c7_state m al (0, c8_fn) =
          .ok { m with
                aliases := m.aliases.erase al,
                tramps := m.tramps ++
                  [{ tname := al.aname, sig := c8_fn.sig,
                     linkage := al.linkage, slot := gv,
                     loadInvariant := true, loadTBAAConst := true,
                     tailKind := if c8_fn.isVarArg then TailKind.musttail
                       else TailKind.tailcall }] })) :=
  ⟨⟨rfl, by decide, rfl, by decide, rfl⟩,
    C8_unique_shared_slot c7_fvars c7_ctx c7_state (0, c8_fn) rfl
      (by decide) rfl (by decide) rfl⟩

/-- C9: an alias to a function with a relocation slot is replaced by a
trampoline that has the aliasee's signature, takes over the alias's name and
linkage, loads the function's address from its RelocationSlot as an
invariant, constant-tagged load and tail-calls it; the original alias symbol
no longer exists afterwards. -/
theorem C9_alias_to_trampoline (fvars : List Nat) (st : SlotState)
    (m : CModule) (al : GAlias) (e : Nat × MFunc) (id : Nat) (gv : GVar)
    (hslot : get_reloc_slot fvars st e = .ok (id, gv))
    (hvec : e.2.sigIsVector = false) (hal : al ∈ m.aliases)
    (hnd : (m.aliases.map (fun a => a.aname)).Nodup) :
    rewrite_alias fvars st m al e =
      .ok { m with
            aliases := m.aliases.erase al,
            tramps := m.tramps ++
              [{ tname := al.aname, sig := e.2.sig, linkage := al.linkage,
                 slot := gv, loadInvariant := true, loadTBAAConst := true,
                 tailKind := if e.2.isVarArg then TailKind.musttail
                   else TailKind.tailcall }] } ∧
    ∀ a ∈ m.aliases.erase al, a.aname ≠ al.aname := by
  constructor
  · unfold rewrite_alias
    rw [if_neg (by simp [hvec]), hslot]
  · intro a ha hname
    have hlnd : m.aliases.Nodup := List.Nodup.of_map _ hnd
    have h2 := (List.Nodup.mem_erase_iff hlnd).mp ha
    exact h2.1 (List.inj_on_of_nodup_map hnd h2.2 hal hname)

def c9_alias : GAlias :=
  { aname := "falias", linkage := .external, aliaseeIdx := 0 }

def c9_module : CModule :=
  { mname := "m9", funcs := [c8_fn], aliases := [c9_alias] }

/-- Witness for C9_alias_to_trampoline on c9_module. -/
theorem C9_witness :
    (get_reloc_slot c7_fvars c7_state (0, c8_fn) = .ok (0, constGV c8_fn) ∧
      c8_fn.sigIsVector = false ∧ c9_alias ∈ c9_module.aliases ∧
      ((c9_module.aliases.map (fun a => a.aname)).Nodup)) ∧
    (rewrite_alias c7_fvars c7_state c9_module c9_alias (0, c8_fn) =
      .ok { c9_module with
            aliases := c9_module.aliases.erase c9_alias,
            tramps := c9_module.tramps ++
              [{ tname := c9_alias.aname, sig := c8_fn.sig,
                 linkage := c9_alias.linkage, slot := constGV c8_fn,
                 loadInvariant := true, loadTBAAConst := true,
                 tailKind := if c8_fn.isVarArg then TailKind.musttail
                   else TailKind.tailcall }] } ∧
    ∀ a ∈ c9_module.aliases.erase c9_alias, a.aname ≠ c9_alias.aname) :=
  ⟨⟨rfl, rfl, by decide, by decide⟩,
    C9_alias_to_trampoline c7_fvars c7_state c9_module c9_alias (0, c8_fn) 0
      (constGV c8_fn) rfl rfl (by decide) (by decide)⟩

def U64 : Nat := 2 ^ 64

def U32 : Nat := 2 ^ 32

/-- 64-bit wrapping subtraction (ConstantExpr::getSub on the size type of
the modeled LP64 platform). -/
def sub64 (a b : Nat) : Nat := (a % U64 + (U64 - b % U64)) % U64

/-- get_ptrdiff32 (lines 746-752): ptrtoint, 64-bit subtraction from the
base, truncation to i32 (the sizeof(void*) == 8 branch). -/
def get_ptrdiff32 (ptr base : Nat) : Nat := sub64 ptr base % U32

/-- The i32 contents of the table emit_offset_table builds (lines 754-787)
for a symbol list with the given addresses: the leading count, then the
hardcoded delta 0 for the first symbol (the emitted base alias points at
it), then the truncated 64-bit differences of the remaining addresses from
the base. -/
def emit_offset_table (addrs : List Nat) : List Nat :=
  match addrs with
  | [] => [0]
  | base :: rest =>
    addrs.length :: 0 :: rest.map (fun a => get_ptrdiff32 a base)

/-- Sign extension of a stored 32-bit delta back to 64 bits. -/
def sext32to64 (d : Nat) : Nat := if d < 2 ^ 31 then d else d + (U64 - U32)

/-- Modelled from the spec: the decoding the round-trip claim describes -
add each stored signed 32-bit delta back to the table's single base pointer
(the first symbol's address), wrapping at 64 bits.  The loader-side decoder
itself lives outside src/. -/
def decode_offset_table (base : Nat) (table : List Nat) : List Nat :=
  match table with
  | [] => []
  | _count :: deltas => deltas.map (fun d => (base + sext32to64 d) % U64)

/-- C4 counterexample: for the address list [0, 2^32] the 32-bit truncation
in get_ptrdiff32 collapses the second delta to 0, so decoding does not
reproduce the original address list. -/
theorem C4_counterexample :
    decode_offset_table 0 (emit_offset_table [0, 2 ^ 32]) ≠ [0, 2 ^ 32] ∧
    (emit_offset_table [0, 2 ^ 32]).head? = some 2 := by
  constructor
  · decide
  · rfl

theorem sext_trunc_eq {d : Nat} (hd : d < 2 ^ 64)
    (hfit : d < 2 ^ 31 ∨ 2 ^ 64 - 2 ^ 31 ≤ d) :
    sext32to64 (d % U32) = d := by
  have h32 : U32 = 4294967296 := by norm_num [U32]
  have h64 : U64 = 18446744073709551616 := by norm_num [U64]
  unfold sext32to64
  rw [h32, h64]
  split
  · rename_i h
    omega
  · rename_i h
    omega

theorem add_sub64 {a b : Nat} (ha : a < 2 ^ 64) (hb : b < 2 ^ 64) :
    (b + sub64 a b) % U64 = a := by
  have h64 : U64 = 18446744073709551616 := by norm_num [U64]
  unfold sub64
  rw [h64]
  omega

/-- C4 (amended): for every nonempty symbol address list in the 64-bit
address space whose members all lie within a signed 32-bit offset of the
first address, decoding the emitted OffsetTable (adding each stored signed
32-bit delta back to the base, the first symbol's address, where the first
stored delta is zero) reproduces the original address list exactly, and the
table's leading entry is the symbol count.  Without the signed-32-bit range
condition the i32 truncation of get_ptrdiff32 loses information, so the
round trip fails in general. -/
theorem C4_offset_roundtrip (addrs : List Nat) (base : Nat)
    (rest : List Nat) (heq : addrs = base :: rest)
    (hbound : ∀ a ∈ addrs, a < 2 ^ 64)
    (hfit : ∀ a ∈ addrs, sub64 a base < 2 ^ 31 ∨
      2 ^ 64 - 2 ^ 31 ≤ sub64 a base) :
    decode_offset_table base (emit_offset_table addrs) = addrs ∧
    (emit_offset_table addrs).head? = some addrs.length := by
  subst heq
  constructor
  · show ((0 : Nat) :: rest.map (fun a => get_ptrdiff32 a base)).map
        (fun d => (base + sext32to64 d) % U64) = base :: rest
    rw [List.map_cons, List.map_map]
    have hbase : (base + sext32to64 0) % U64 = base := by
      have h64 : U64 = 18446744073709551616 := by norm_num [U64]
      have hblt := hbound base (by simp)
      rw [show sext32to64 0 = 0 from rfl, h64]
      omega
    rw [hbase]
    congr 1
    rw [List.map_congr_left, List.map_id]
    intro a ha
    show (base + sext32to64 (get_ptrdiff32 a base)) % U64 = a
    have halt := hbound a (List.mem_cons_of_mem base ha)
    have hblt := hbound base (by simp)
    have hsub : sub64 a base < 2 ^ 64 := by
      have h64 : U64 = 18446744073709551616 := by norm_num [U64]
      unfold sub64
      rw [h64]
      omega
    rw [show get_ptrdiff32 a base = sub64 a base % U32 from rfl,
      sext_trunc_eq hsub (hfit a (List.mem_cons_of_mem base ha)),
      add_sub64 halt hblt]
  · rfl

/-- Witness for C4_offset_roundtrip on the address list [100, 200, 50]
(including a negative delta). -/
theorem C4_witness :
    (([100, 200, 50] : List Nat) = 100 :: [200, 50] ∧
      (∀ a ∈ ([100, 200, 50] : List Nat), a < 2 ^ 64) ∧
      ∀ a ∈ ([100, 200, 50] : List Nat), sub64 a 100 < 2 ^ 31 ∨
        2 ^ 64 - 2 ^ 31 ≤ sub64 a 100) ∧
    decode_offset_table 100 (emit_offset_table [100, 200, 50]) =
      [100, 200, 50] ∧
    (emit_offset_table [100, 200, 50]).head? =
      some ([100, 200, 50] : List Nat).length :=
  ⟨⟨rfl, by decide, by decide⟩,
    C4_offset_roundtrip [100, 200, 50] 100 [200, 50] rfl (by decide)
      (by decide)⟩

end Multiversioning
